import Mathlib

/-!
Verification development for the SerdeBuilderDeserializer crate: a shallow
embedding of the value-tree algebra (src/datatype.rs), the evaluation
context (src/closure.rs), the two mirrored evaluators (src/deserialize.rs
and src/builder_deserialize_ref.rs) and the sequence/map adapters
(src/list_access.rs, src/list_access_ref.rs, src/map_access.rs,
src/map_access_ref.rs), together with theorems settling the frozen claims.

Modelling conventions:
- machine integers: i64 is modelled as Int, u64 and usize as Nat (the code
  only copies, compares and decrements these, so no wraparound occurs);
- IEEE doubles are modelled abstractly by the observations the code makes
  of them (zero test, sign, normality, integer casts, formatting);
- Rc and Weak are modelled by annotations on the tree: a Reference node
  carries the two runtime facts the owning evaluator branches on
  (weak_count > 0, and whether try_unwrap would fail because the strong
  count exceeds one), and a SelfReference carries the result of upgrade
  (some target, or none when dangling).  Cyclic graphs cannot be expressed
  in this finite tree model; a separate heap-indexed model below is used
  for the cyclic counterexample;
- RefCell cells (Store, Take) hold their content inline; cell aliasing
  between distinct tree positions is not represented (no settled claim
  depends on it);
- the serde visitor is instantiated with the generic value-building
  consumer, so deserialize_any produces a Value tree; visit_str,
  visit_string and visit_borrowed_str all construct the same Value.
-/

/-- Abstraction of an IEEE-754 double (Rust f64) by the observations the
crate makes of one: the zero comparison, sign, normality, the saturating
integer casts and the display form. -/
structure F64 where
  eqZero : Bool
  signPositive : Bool
  isNormal : Bool
  castU64 : Nat
  castI64 : Int
  fmt : String
deriving DecidableEq, Repr

/-- Model of the f64 value obtained by casting an i64 (used by to_float). -/
def F64.ofInt (i : Int) : F64 :=
  ⟨decide (i = 0), decide (0 ≤ i), decide (i ≠ 0), i.toNat, i, toString i⟩

/-- Model of the f64 value obtained by casting a u64 or usize. -/
def F64.ofNat (n : Nat) : F64 :=
  ⟨decide (n = 0), true, decide (n ≠ 0), n, n, toString n⟩

/-- Model of Rust Cow<'de, str>: borrowed or owned text. -/
inductive CowStr where
  | Borrowed (s : String)
  | Owned (s : String)
deriving DecidableEq, Repr

/-- Text content of a Cow string. -/
def CowStr.str : CowStr → String
  | .Borrowed s => s
  | .Owned s => s

/-- Decimal digit value of a character, if it is a digit. -/
def digitVal (c : Char) : Option Nat :=
  if c.isDigit then some (c.toNat - 48) else none

/-- Model of str::parse::<u64> on its decimal fragment: an optional leading
plus sign followed by at least one digit, rejecting values outside u64. -/
def parseU64 (s : String) : Option Nat :=
  let body := if s.startsWith ("+") then (s.drop 1).toList else s.toList
  if body.isEmpty then none
  else
    body.foldl
      (fun acc c => match acc, digitVal c with
        | some n, some d => if n * 10 + d < 2 ^ 64 then some (n * 10 + d) else none
        | _, _ => none)
      (some 0)

/-- Model of str::parse::<i64> on its decimal fragment. -/
def parseI64 (s : String) : Option Int :=
  if s.startsWith ("-") then
    match parseU64 (s.drop 1) with
    | some n => if n ≤ 2 ^ 63 then some (-(n : Int)) else none
    | none => none
  else
    match parseU64 s with
    | some n => if n < 2 ^ 63 then some (n : Int) else none
    | none => none

/-- Model of str::parse::<f64> restricted to the integer forms the model
can express; other syntax is treated as a parse failure. -/
def parseF64 (s : String) : Option F64 :=
  (parseI64 s).map F64.ofInt

/-- Error type of the crate (src/errors.rs). -/
inductive BuilderError where
  | InvalidMapAccess
  | InvalidDeserialization (msg : String)
  | InvalidFunctionArgument
  | InvalidSelfRefrence
deriving DecidableEq, Repr

/-- The node algebra (src/datatype.rs, enum BuilderDataType).  Reference
carries the two runtime observations of its Rc (weak_count > 0; whether a
second strong owner makes try_unwrap fail); SelfReference carries the
result of upgrading its Weak; Store and Take hold the content of their
RefCell inline. -/
inductive BuilderDataType where
  | Empty
  | Boolean (b : Bool)
  | Integer (v : Int)
  | Unsigned (v : Nat)
  | Number (v : F64)
  | String (s : CowStr)
  | Map (entries : List (BuilderDataType × BuilderDataType))
  | List (elems : List BuilderDataType)
  | Closure (v : List BuilderDataType)
  | Argument (a : Nat)
  | TakeFromArgument (a : Nat)
  | PopArgument
  | Reference (weakAlive : Bool) (shared : Bool) (r : BuilderDataType)
  | SelfReference (target : Option BuilderDataType)
  | Store (r : BuilderDataType)
  | Take (r : BuilderDataType)
  | IfThenElse (v : List BuilderDataType)
  | Repeat (v : List BuilderDataType)
  | Range (v : List BuilderDataType)
  | Sum (v : List BuilderDataType)
  | Multiply (v : List BuilderDataType)
  | Index
  | Unique
deriving Repr

/-- Consuming read take_one (src/datatype.rs lines 36-65): the pair is
(returned value, mutated source). -/
def takeOne : BuilderDataType → BuilderDataType × BuilderDataType
  | .Empty => (.Empty, .Empty)
  | .Boolean b => (.Boolean b, .Boolean (if b then false else b))
  | .Integer b => (.Integer b, .Integer (if 0 < b then b - 1 else 0))
  | .Unsigned b => (.Unsigned b, .Unsigned (if 0 < b then b - 1 else b))
  | .List c => ((c.getLast?).getD .Empty, .List c.dropLast)
  | d => (.Empty, d)

theorem sizeOf_getLast?_getD_le (l : List BuilderDataType) :
    sizeOf ((l.getLast?).getD .Empty) ≤ 1 + sizeOf l := by
  match h : l.getLast? with
  | none => simp [h]
  | some a =>
    have hm : a ∈ l := List.mem_of_mem_getLast? h
    have := List.sizeOf_lt_of_mem hm
    simp [h]; omega

theorem sizeOf_takeOne_fst_le (d : BuilderDataType) : sizeOf (takeOne d).fst ≤ sizeOf d := by
  cases d with
  | List c =>
    have := sizeOf_getLast?_getD_le c
    simp only [takeOne]
    simp; omega
  | _ => simp [takeOne] <;> omega

/-- Truth coercion check_true (src/datatype.rs lines 67-90).  Note that the
match has no IfThenElse arm: IfThenElse nodes fall into the default arm. -/
def checkTrue : BuilderDataType → Bool
  | .Empty => false
  | .Boolean b => b
  | .Integer v => v != 0
  | .Unsigned v => v != 0
  | .Number v => !v.eqZero
  | .String s => !s.str.isEmpty
  | .Map c => !c.isEmpty
  | .List c => !c.isEmpty
  | .Reference _ _ r => checkTrue r
  | .SelfReference w => match w with | some r => checkTrue r | none => false
  | .Store r => checkTrue r
  | .Take r => checkTrue (takeOne r).fst
  | .Repeat v => match v with | r :: _ => checkTrue r | [] => false
  | _ => false
termination_by d => sizeOf d
decreasing_by
  all_goals simp_wf
  all_goals try omega
  all_goals have := sizeOf_takeOne_fst_le r
  all_goals omega

/-- Unsigned coercion to_unsigned (src/datatype.rs lines 92-127). -/
def toUnsigned : BuilderDataType → Nat
  | .Empty => 0
  | .Boolean v => if v then 1 else 0
  | .Integer v => v.toNat
  | .Unsigned v => v
  | .Number v => if v.signPositive && v.isNormal then v.castU64 else 0
  | .String v => (parseU64 v.str).getD 0
  | .Map v => v.length
  | .List v => v.length
  | .Reference _ _ r => toUnsigned r
  | .SelfReference w => match w with | some r => toUnsigned r | none => 0
  | .Store r => toUnsigned r
  | .Take r => toUnsigned (takeOne r).fst
  | .Repeat v => match v with | r :: _ => toUnsigned r | [] => 0
  | _ => 0
termination_by d => sizeOf d
decreasing_by
  all_goals simp_wf
  all_goals try omega
  all_goals have := sizeOf_takeOne_fst_le r
  all_goals omega

/-- Signed coercion to_signed (src/datatype.rs lines 129-164). -/
def toSigned : BuilderDataType → Int
  | .Empty => 0
  | .Boolean v => if v then 1 else 0
  | .Integer v => v
  | .Unsigned v => (min v (2 ^ 63 - 1) : Nat)
  | .Number v => if v.isNormal then v.castI64 else 0
  | .String v => (parseI64 v.str).getD 0
  | .Map v => v.length
  | .List v => v.length
  | .Reference _ _ r => toSigned r
  | .SelfReference w => match w with | some r => toSigned r | none => 0
  | .Store r => toSigned r
  | .Take r => toSigned (takeOne r).fst
  | .Repeat v => match v with | r :: _ => toSigned r | [] => 0
  | _ => 0
termination_by d => sizeOf d
decreasing_by
  all_goals simp_wf
  all_goals try omega
  all_goals have := sizeOf_takeOne_fst_le r
  all_goals omega

/-- Float coercion to_float (src/datatype.rs lines 166-195). -/
def toFloat : BuilderDataType → F64
  | .Empty => F64.ofInt 0
  | .Boolean v => if v then F64.ofInt 1 else F64.ofInt 0
  | .Integer v => F64.ofInt v
  | .Unsigned v => F64.ofNat v
  | .Number v => v
  | .String v => (parseF64 v.str).getD (F64.ofInt 0)
  | .Map v => F64.ofNat v.length
  | .List v => F64.ofNat v.length
  | .Reference _ _ r => toFloat r
  | .SelfReference w => match w with | some r => toFloat r | none => F64.ofInt 0
  | .Store r => toFloat r
  | .Take r => toFloat (takeOne r).fst
  | .Repeat v => match v with | r :: _ => toFloat r | [] => F64.ofInt 0
  | _ => F64.ofInt 0
termination_by d => sizeOf d
decreasing_by
  all_goals simp_wf
  all_goals try omega
  all_goals have := sizeOf_takeOne_fst_le r
  all_goals omega

mutual

/-- Text coercion to_string (src/datatype.rs lines 197-250). -/
def toStr : BuilderDataType → CowStr
  | .Empty => .Owned ("")
  | .Boolean v => if v then .Borrowed ("true") else .Borrowed ("false")
  | .Integer v => .Owned (toString v)
  | .Unsigned v => .Owned (toString v)
  | .Number v => .Owned v.fmt
  | .String v => v
  | .Map v => toStrEntries (.Owned ("")) v
  | .List v => toStrElems (.Owned ("")) v
  | .Reference _ _ r => toStr r
  | .SelfReference w => match w with | some r => toStr r | none => .Owned ("")
  | .Store r => toStr r
  | .Take r => toStr (takeOne r).fst
  | _ => .Owned ("")

termination_by d => sizeOf d
decreasing_by
  all_goals simp_wf
  all_goals try omega
  all_goals have := sizeOf_takeOne_fst_le r
  all_goals omega

/-- Fold of to_string over Map entries: skip an entry whose key or value
formats to empty, join the rest as key:value separated by commas. -/
def toStrEntries (s : CowStr) :
    List (BuilderDataType × BuilderDataType) → CowStr
  | [] => s
  | (k, w) :: rest =>
    let key := toStr k
    if key.str.isEmpty then toStrEntries s rest
    else
      let value := toStr w
      if value.str.isEmpty then toStrEntries s rest
      else if s.str.isEmpty then
        toStrEntries (.Owned (key.str ++ (":") ++ value.str)) rest
      else
        toStrEntries (.Owned (s.str ++ (",") ++ key.str ++ (":") ++ value.str)) rest

termination_by l => sizeOf l
decreasing_by
  all_goals simp_wf
  all_goals omega

/-- Fold of to_string over List elements: an empty accumulator is replaced
by the element text; later non-empty element texts are appended with a
comma separator. -/
def toStrElems (s : CowStr) : List BuilderDataType → CowStr
  | [] => s
  | e :: rest =>
    if s.str.isEmpty then toStrElems (toStr e) rest
    else
      let value := toStr e
      if value.str.isEmpty then toStrElems s rest
      else toStrElems (.Owned (s.str ++ (",") ++ value.str)) rest
termination_by l => sizeOf l
decreasing_by
  all_goals simp_wf
  all_goals omega

end

/-- The evaluation context (src/closure.rs, struct Closure): the argument
stack and the element index register. -/
structure Closure where
  args : List BuilderDataType
  index : Nat
deriving Repr

/-- Value of the serde data model produced by a generic value-building
visitor driving deserialize_any. -/
inductive Value where
  | bool (b : Bool)
  | i64 (v : Int)
  | u64 (v : Nat)
  | f64 (v : F64)
  | str (s : String)
  | seq (elems : List Value)
  | map (entries : List (Value × Value))
deriving Repr

/-- Closure::get_argument (src/closure.rs lines 12-18). -/
def getArgument (s : Closure) (a : Nat) : Except BuilderError BuilderDataType :=
  match s.args.get? a with
  | some p => .ok p
  | none => .error .InvalidFunctionArgument

/-- Closure::clone_argument (src/closure.rs lines 19-25); a structural
clone is the identity in this model. -/
def cloneArgument (s : Closure) (a : Nat) : Except BuilderError BuilderDataType :=
  match s.args.get? a with
  | some p => .ok p
  | none => .error .InvalidFunctionArgument

/-- Closure::take_from_argument (src/closure.rs lines 26-32): take_one on
slot a, returning the taken value and the context with the mutated slot. -/
def takeFromArgument (s : Closure) (a : Nat) :
    Except BuilderError (BuilderDataType × Closure) :=
  match s.args.get? a with
  | some p => .ok ((takeOne p).fst, { s with args := s.args.set a (takeOne p).snd })
  | none => .error .InvalidFunctionArgument

/-- Model of Iterator::cycle().take(n) over the element list that remains
after the Repeat count has been consumed; an empty cycle expands to
nothing, matching the Rust iterator. -/
def cycleTakeAux (orig : List BuilderDataType) :
    List BuilderDataType → Nat → List BuilderDataType
  | _, 0 => []
  | [], n + 1 =>
    match orig with
    | [] => []
    | o :: ot => o :: cycleTakeAux orig ot n
  | x :: xs, n + 1 => x :: cycleTakeAux orig xs n

/-- Cyclic truncation used by the Repeat arms of both evaluators. -/
def cycleTake (l : List BuilderDataType) (n : Nat) : List BuilderDataType :=
  cycleTakeAux l l n

/-- Pending call of the evaluation engine.  own and ref are
BuilderDeserializer::deserialize_any and
BuilderDeserializerRef::deserialize_any; seqOwn/seqRef drain
BuilderListAccess/BuilderListAccessRef under a value-building visitor;
entriesOwn/entriesRef drain BuilderMapAccess/BuilderMapAccessRef;
resolveOne, resolveCloneOne, resolveBool, ifteOwn, ifteRef are
Closure::resolve, Closure::resolve_clone, Closure::resolve_to_bool,
Closure::if_then_else and Closure::if_then_else_ref; resolveAllOwn and
resolveAllRef are the argument-collection loops of the two Closure arms. -/
inductive EvalCall where
  | own (s : Closure) (d : BuilderDataType)
  | ref (s : Closure) (d : BuilderDataType)
  | seqOwn (s : Closure) (ix : Nat) (acc : List Value) (l : List BuilderDataType)
  | seqRef (s : Closure) (ix : Nat) (acc : List Value) (l : List BuilderDataType)
  | entriesOwn (s : Closure) (acc : List (Value × Value))
      (l : List (BuilderDataType × BuilderDataType))
  | entriesRef (s : Closure) (acc : List (Value × Value))
      (l : List (BuilderDataType × BuilderDataType))
  | resolveOne (s : Closure) (d : BuilderDataType)
  | resolveCloneOne (s : Closure) (d : BuilderDataType)
  | resolveBool (s : Closure) (d : BuilderDataType)
  | ifteOwn (s : Closure) (v : List BuilderDataType)
  | ifteRef (s : Closure) (v : List BuilderDataType)
  | resolveAllOwn (s : Closure) (acc : List BuilderDataType) (l : List BuilderDataType)
  | resolveAllRef (s : Closure) (acc : List BuilderDataType) (l : List BuilderDataType)

/-- Outcome of a call: a produced value, a resolved node, a collected
argument vector or a condition bit (each with the updated context), a
returned BuilderError, the fatalTodo outcome modelling the todo macro
panicking, or fuel exhaustion of the model. -/
inductive EvalOut where
  | ok (v : Value) (s : Closure)
  | okD (d : BuilderDataType) (s : Closure)
  | okList (l : List BuilderDataType) (s : Closure)
  | okBool (b : Bool) (s : Closure)
  | err (e : BuilderError)
  | fatalTodo
  | outOfFuel
deriving Repr

/-- Fuel-indexed engine covering both deserialize_any implementations, the
adapter loops and the context resolution helpers.  Every recursive call
costs one unit of fuel; apart from outOfFuel the result is independent of
the fuel once it is large enough.  The transcription of each source arm is
exact up to one observational identity: the borrowing Closure arm of the
source resolves the (empty) binding list before discovering that there is
no body, a no-op, whereas here the empty case errors at once. -/
def evalCall : Nat → EvalCall → EvalOut
  | 0, _ => .outOfFuel
  | f + 1, c =>
    match c with
    | .own s d =>
      match d with
      | .Empty => .fatalTodo
      | .Boolean v => .ok (.bool v) s
      | .Integer v => .ok (.i64 v) s
      | .Unsigned v => .ok (.u64 v) s
      | .Number v => .ok (.f64 v) s
      | .String cs => .ok (.str cs.str) s
      | .Map v => evalCall f (.entriesOwn s [] v)
      | .List v => evalCall f (.seqOwn s 0 [] v)
      | .Closure v =>
        match v with
        | [] => .err .InvalidFunctionArgument
        | b :: _ =>
          match evalCall f (.resolveAllOwn s [] v) with
          | .okList args2 s2 =>
            (match evalCall f (.own ⟨args2, s2.index⟩ b) with
             | .ok val _ => .ok val s2
             | r => r)
          | r => r
      | .Argument a =>
        match s.args.get? a with
        | some p => evalCall f (.own s p)
        | none => .err .InvalidFunctionArgument
      | .TakeFromArgument a =>
        match takeFromArgument s a with
        | .ok (p, s2) => evalCall f (.own s2 p)
        | .error e => .err e
      | .PopArgument =>
        match s.args.getLast? with
        | some p => evalCall f (.own { s with args := s.args.dropLast } p)
        | none => .err .InvalidFunctionArgument
      | .Reference weakAlive shared r =>
        if weakAlive then evalCall f (.ref s r)
        else if shared then evalCall f (.ref s r)
        else evalCall f (.own s r)
      | .SelfReference w =>
        match w with
        | some r => evalCall f (.ref s r)
        | none => .err .InvalidSelfRefrence
      | .Store r => evalCall f (.own s r)
      | .Take r => evalCall f (.own s (takeOne r).fst)
      | .IfThenElse v =>
        match evalCall f (.ifteOwn s v) with
        | .okD b s2 => evalCall f (.own s2 b)
        | r => r
      | .Repeat v =>
        match v with
        | [] => evalCall f (.seqRef s 0 [] [])
        | cnt :: rest => evalCall f (.seqRef s 0 [] (cycleTake rest (toUnsigned cnt)))
      | .Index => .ok (.u64 s.index) s
      | .Range _ => .fatalTodo
      | .Sum _ => .fatalTodo
      | .Multiply _ => .fatalTodo
      | .Unique => .fatalTodo
    | .ref s d =>
      match d with
      | .Empty => .fatalTodo
      | .Boolean v => .ok (.bool v) s
      | .Integer v => .ok (.i64 v) s
      | .Unsigned v => .ok (.u64 v) s
      | .Number v => .ok (.f64 v) s
      | .String cs => .ok (.str cs.str) s
      | .Map v => evalCall f (.entriesRef s [] v)
      | .List v => evalCall f (.seqRef s 0 [] v)
      | .Closure v =>
        match v with
        | [] => .err .InvalidFunctionArgument
        | b :: _ =>
          match evalCall f (.resolveAllRef s [] v) with
          | .okList args2 s2 =>
            (match evalCall f (.ref ⟨args2, s2.index⟩ b) with
             | .ok val _ => .ok val s2
             | r => r)
          | r => r
      | .Argument a =>
        match s.args.get? a with
        | some p => evalCall f (.own s p)
        | none => .err .InvalidFunctionArgument
      | .TakeFromArgument a =>
        match takeFromArgument s a with
        | .ok (p, s2) => evalCall f (.own s2 p)
        | .error e => .err e
      | .PopArgument => .fatalTodo
      | .Reference _ _ r => evalCall f (.ref s r)
      | .SelfReference w =>
        match w with
        | some r => evalCall f (.ref s r)
        | none => .err .InvalidSelfRefrence
      | .Store r => evalCall f (.own s r)
      | .Take r => evalCall f (.own s (takeOne r).fst)
      | .IfThenElse v =>
        match evalCall f (.ifteRef s v) with
        | .okD b s2 => evalCall f (.ref s2 b)
        | r => r
      | .Repeat v =>
        match v with
        | [] => evalCall f (.seqRef s 0 [] [])
        | cnt :: rest => evalCall f (.seqRef s 0 [] (cycleTake rest (toUnsigned cnt)))
      | .Index => .ok (.u64 s.index) s
      | .Range _ => .fatalTodo
      | .Sum _ => .fatalTodo
      | .Multiply _ => .fatalTodo
      | .Unique => .fatalTodo
    | .seqOwn s ix acc l =>
      match l with
      | [] => .ok (.seq acc) s
      | e :: rest =>
        match evalCall f (.own { s with index := ix } e) with
        | .ok v s2 => evalCall f (.seqOwn s2 (ix + 1) (acc ++ [v]) rest)
        | r => r
    | .seqRef s ix acc l =>
      match l with
      | [] => .ok (.seq acc) s
      | e :: rest =>
        match evalCall f (.ref { s with index := ix } e) with
        | .ok v s2 => evalCall f (.seqRef s2 (ix + 1) (acc ++ [v]) rest)
        | r => r
    | .entriesOwn s acc l =>
      match l with
      | [] => .ok (.map acc) s
      | (k, w) :: rest =>
        match evalCall f (.own s k) with
        | .ok kv s2 =>
          (match evalCall f (.own s2 w) with
           | .ok wv s3 => evalCall f (.entriesOwn s3 (acc ++ [(kv, wv)]) rest)
           | r => r)
        | r => r
    | .entriesRef s acc l =>
      match l with
      | [] => .ok (.map acc) s
      | (k, w) :: rest =>
        match evalCall f (.ref s k) with
        | .ok kv s2 =>
          (match evalCall f (.ref s2 w) with
           | .ok wv s3 => evalCall f (.entriesRef s3 (acc ++ [(kv, wv)]) rest)
           | r => r)
        | r => r
    | .resolveOne s d =>
      match d with
      | .Argument a =>
        match cloneArgument s a with
        | .ok p => .okD p s
        | .error e => .err e
      | .TakeFromArgument a =>
        match takeFromArgument s a with
        | .ok (p, s2) => .okD p s2
        | .error e => .err e
      | .IfThenElse v => evalCall f (.ifteOwn s v)
      | b => .okD b s
    | .resolveCloneOne s d =>
      match d with
      | .Argument a =>
        match cloneArgument s a with
        | .ok p => .okD p s
        | .error e => .err e
      | .TakeFromArgument a =>
        match takeFromArgument s a with
        | .ok (p, s2) => .okD p s2
        | .error e => .err e
      | .IfThenElse v => evalCall f (.ifteRef s v)
      | b => .okD b s
    | .resolveBool s d =>
      match d with
      | .Argument a =>
        match getArgument s a with
        | .ok p => .okBool (checkTrue p) s
        | .error e => .err e
      | .TakeFromArgument a =>
        match takeFromArgument s a with
        | .ok (p, s2) => .okBool (checkTrue p) s2
        | .error e => .err e
      | .IfThenElse v =>
        match evalCall f (.ifteRef s v) with
        | .okD b s2 => .okBool (checkTrue b) s2
        | r => r
      | b => .okBool (checkTrue b) s
    | .ifteOwn s v =>
      match v with
      | c :: t :: e :: _ =>
        (match evalCall f (.resolveOne s c) with
         | .okD c2 s2 => if checkTrue c2 then .okD t s2 else .okD e s2
         | r => r)
      | _ => .err .InvalidFunctionArgument
    | .ifteRef s v =>
      match v with
      | c :: t :: e :: _ =>
        (match evalCall f (.resolveBool s c) with
         | .okBool true s2 => .okD t s2
         | .okBool false s2 => .okD e s2
         | r => r)
      | _ => .err .InvalidFunctionArgument
    | .resolveAllOwn s acc l =>
      match l with
      | [] => .okList acc s
      | d :: rest =>
        match evalCall f (.resolveOne s d) with
        | .okD p s2 => evalCall f (.resolveAllOwn s2 (acc ++ [p]) rest)
        | r => r
    | .resolveAllRef s acc l =>
      match l with
      | [] => .okList acc s
      | d :: rest =>
        match evalCall f (.resolveCloneOne s d) with
        | .okD p s2 => evalCall f (.resolveAllRef s2 (acc ++ [p]) rest)
        | r => r

/-- Owning evaluation of a node: BuilderDeserializer::deserialize_any. -/
def evalOwn (f : Nat) (s : Closure) (d : BuilderDataType) : EvalOut :=
  evalCall f (.own s d)

/-- Borrowing evaluation of a node:
BuilderDeserializerRef::deserialize_any. -/
def evalRef (f : Nat) (s : Closure) (d : BuilderDataType) : EvalOut :=
  evalCall f (.ref s d)

/-- Fresh context built by the entry points (src/lib.rs, from_data and
from_ref): empty argument stack and index 0. -/
def freshClosure : Closure := ⟨[], 0⟩

/-- Owning entry point from_data with the given fuel. -/
def fromData (f : Nat) (d : BuilderDataType) : EvalOut :=
  evalOwn f freshClosure d

/-- Borrowing entry point from_ref with the given fuel. -/
def fromRef (f : Nat) (d : BuilderDataType) : EvalOut :=
  evalRef f freshClosure d

/-- Owning and borrowing list adapter state (src/list_access.rs and
src/list_access_ref.rs have identical fields and logic): the not yet
pulled elements, the size hint captured at construction, and the running
element counter.  The counter is copied into the context index before each
element is deserialized; the element handed to the seed is returned by
nextElementSeed. -/
structure BuilderListAccessM where
  data : List BuilderDataType
  sizeHint : Option Nat
  index : Nat
deriving Repr

/-- Adapter construction in the List arm of deserialize_any: size hint is
the container length. -/
def mkListAccess (v : List BuilderDataType) : BuilderListAccessM :=
  ⟨v, some v.length, 0⟩

/-- Adapter construction in the Repeat arm of deserialize_any: the first
child decodes the count, the cycle of the remaining children truncated to
that count is the data, and the size hint is the count. -/
def mkRepeatAccess (v : List BuilderDataType) : BuilderListAccessM :=
  match v with
  | [] => ⟨[], some 0, 0⟩
  | cnt :: rest => ⟨cycleTake rest (toUnsigned cnt), some (toUnsigned cnt), 0⟩

/-- SeqAccess::next_element_seed of both list adapters: none when
exhausted, otherwise the next element and the advanced adapter. -/
def nextElementSeed (m : BuilderListAccessM) :
    Option (BuilderDataType × BuilderListAccessM) :=
  match m.data with
  | [] => none
  | d :: rest => some (d, ⟨rest, m.sizeHint, m.index + 1⟩)

/-- Owning and borrowing map adapter state (src/map_access.rs and
src/map_access_ref.rs have identical fields and logic): the not yet pulled
entries, the one-slot leftover stash, and the size hint captured at
construction. -/
structure BuilderMapAccessM where
  data : List (BuilderDataType × BuilderDataType)
  leftover : Option BuilderDataType
  sizeHint : Option Nat
deriving Repr

/-- Adapter construction in the Map arm of deserialize_any: empty stash,
size hint is the container length. -/
def mkMapAccess (v : List (BuilderDataType × BuilderDataType)) : BuilderMapAccessM :=
  ⟨v, none, some v.length⟩

/-- MapAccess::next_key_seed of both map adapters: advance, stash the
value, hand out the key. -/
def nextKeySeed (m : BuilderMapAccessM) :
    Option (BuilderDataType × BuilderMapAccessM) :=
  match m.data with
  | [] => none
  | (a, b) :: rest => some (a, ⟨rest, some b, m.sizeHint⟩)

/-- MapAccess::next_value_seed of both map adapters: take the stash, error
with InvalidMapAccess when it is empty. -/
def nextValueSeed (m : BuilderMapAccessM) :
    Except BuilderError (BuilderDataType × BuilderMapAccessM) :=
  match m.leftover with
  | some l => .ok (l, { m with leftover := none })
  | none => .error .InvalidMapAccess

/-- MapAccess::next_entry_seed of both map adapters: advance, clear the
stash, hand out the entry. -/
def nextEntrySeed (m : BuilderMapAccessM) :
    Option ((BuilderDataType × BuilderDataType) × BuilderMapAccessM) :=
  match m.data with
  | [] => none
  | (a, b) :: rest => some ((a, b), ⟨rest, none, m.sizeHint⟩)

/-- Node of the heap-indexed graph model, used where the value graph is
cyclic and the finite tree model cannot represent it.  Reference and
SelfReference point into a heap of shared nodes by index (a SelfReference
stores none when its weak pointer is dangling); Store and Take index a
separate mutable cell heap; all other payloads are as in the tree model. -/
inductive GNode where
  | Empty
  | Boolean (b : Bool)
  | Integer (v : Int)
  | Unsigned (v : Nat)
  | Number (v : F64)
  | String (s : CowStr)
  | Map (entries : List (GNode × GNode))
  | List (elems : List GNode)
  | Closure (v : List GNode)
  | Argument (a : Nat)
  | TakeFromArgument (a : Nat)
  | PopArgument
  | Reference (t : Nat)
  | SelfReference (t : Option Nat)
  | Store (c : Nat)
  | Take (c : Nat)
  | IfThenElse (v : List GNode)
  | Repeat (v : List GNode)
  | Range (v : List GNode)
  | Sum (v : List GNode)
  | Multiply (v : List GNode)
  | Index
  | Unique
deriving Repr

/-- take_one in the graph model (cells are indices, so the Rc-bearing
variants again fall into the unchanged default arm). -/
def takeOneG : GNode → GNode × GNode
  | .Empty => (.Empty, .Empty)
  | .Boolean b => (.Boolean b, .Boolean (if b then false else b))
  | .Integer b => (.Integer b, .Integer (if 0 < b then b - 1 else 0))
  | .Unsigned b => (.Unsigned b, .Unsigned (if 0 < b then b - 1 else b))
  | .List c => ((c.getLast?).getD .Empty, .List c.dropLast)
  | d => (.Empty, d)

/-- check_true transcribed over the graph model: rcHeap holds the shared
Reference targets, cells the mutable Store and Take contents (threaded
through because reading truth through Take consumes).  The fuel counts
recursive calls; a run of the Rust function that never returns corresponds
to none for every fuel. -/
def checkTrueG (rcHeap : List GNode) :
    Nat → List GNode → GNode → Option (Bool × List GNode)
  | 0, _, _ => none
  | f + 1, cells, n =>
    match n with
    | .Empty => some (false, cells)
    | .Boolean b => some (b, cells)
    | .Integer v => some (v != 0, cells)
    | .Unsigned v => some (v != 0, cells)
    | .Number v => some (!v.eqZero, cells)
    | .String s => some (!s.str.isEmpty, cells)
    | .Map c => some (!c.isEmpty, cells)
    | .List c => some (!c.isEmpty, cells)
    | .Reference t => checkTrueG rcHeap f cells (rcHeap.getD t .Empty)
    | .SelfReference w =>
      match w with
      | some t => checkTrueG rcHeap f cells (rcHeap.getD t .Empty)
      | none => some (false, cells)
    | .Store c => checkTrueG rcHeap f cells (cells.getD c .Empty)
    | .Take c =>
      checkTrueG rcHeap f (cells.set c (takeOneG (cells.getD c .Empty)).snd)
        (takeOneG (cells.getD c .Empty)).fst
    | .Repeat v =>
      match v with
      | r :: _ => checkTrueG rcHeap f cells r
      | [] => some (false, cells)
    | _ => some (false, cells)

/-- Heap containing the value built by Rc::new_cyclic with a
SelfReference of the new Rc as content: slot 0 refers back to itself. -/
def cyclicSelfRefHeap : List GNode := [GNode.SelfReference (some 0)]

/-- Divergence statement: on the cyclic self-reference, check_true runs
out of any amount of fuel, i.e. the recursion never returns. -/
def checkTrueCycleDiverges : Prop :=
  ∀ (f : Nat) (cells : List GNode),
    checkTrueG cyclicSelfRefHeap f cells (.SelfReference (some 0)) = none

/-- Fuel-indexed transcription of check_true on the tree model, used to
express its termination bound. -/
def checkTrueF : Nat → BuilderDataType → Option Bool
  | 0, _ => none
  | f + 1, d =>
    match d with
    | .Empty => some false
    | .Boolean b => some b
    | .Integer v => some (v != 0)
    | .Unsigned v => some (v != 0)
    | .Number v => some (!v.eqZero)
    | .String s => some (!s.str.isEmpty)
    | .Map c => some (!c.isEmpty)
    | .List c => some (!c.isEmpty)
    | .Reference _ _ r => checkTrueF f r
    | .SelfReference w =>
      match w with
      | some r => checkTrueF f r
      | none => some false
    | .Store r => checkTrueF f r
    | .Take r => checkTrueF f (takeOne r).fst
    | .Repeat v =>
      match v with
      | r :: _ => checkTrueF f r
      | [] => some false
    | _ => some false

/-- Fuel-indexed transcription of to_unsigned on the tree model. -/
def toUnsignedF : Nat → BuilderDataType → Option Nat
  | 0, _ => none
  | f + 1, d =>
    match d with
    | .Empty => some 0
    | .Boolean v => some (if v then 1 else 0)
    | .Integer v => some v.toNat
    | .Unsigned v => some v
    | .Number v => some (if v.signPositive && v.isNormal then v.castU64 else 0)
    | .String v => some ((parseU64 v.str).getD 0)
    | .Map v => some v.length
    | .List v => some v.length
    | .Reference _ _ r => toUnsignedF f r
    | .SelfReference w =>
      match w with
      | some r => toUnsignedF f r
      | none => some 0
    | .Store r => toUnsignedF f r
    | .Take r => toUnsignedF f (takeOne r).fst
    | .Repeat v =>
      match v with
      | r :: _ => toUnsignedF f r
      | [] => some 0
    | _ => some 0

/-- Fuel-indexed transcription of to_signed on the tree model. -/
def toSignedF : Nat → BuilderDataType → Option Int
  | 0, _ => none
  | f + 1, d =>
    match d with
    | .Empty => some 0
    | .Boolean v => some (if v then 1 else 0)
    | .Integer v => some v
    | .Unsigned v => some ((min v (2 ^ 63 - 1) : Nat) : Int)
    | .Number v => some (if v.isNormal then v.castI64 else 0)
    | .String v => some ((parseI64 v.str).getD 0)
    | .Map v => some (v.length : Int)
    | .List v => some (v.length : Int)
    | .Reference _ _ r => toSignedF f r
    | .SelfReference w =>
      match w with
      | some r => toSignedF f r
      | none => some 0
    | .Store r => toSignedF f r
    | .Take r => toSignedF f (takeOne r).fst
    | .Repeat v =>
      match v with
      | r :: _ => toSignedF f r
      | [] => some 0
    | _ => some 0

/-- Fuel-indexed transcription of to_float on the tree model. -/
def toFloatF : Nat → BuilderDataType → Option F64
  | 0, _ => none
  | f + 1, d =>
    match d with
    | .Empty => some (F64.ofInt 0)
    | .Boolean v => some (if v then F64.ofInt 1 else F64.ofInt 0)
    | .Integer v => some (F64.ofInt v)
    | .Unsigned v => some (F64.ofNat v)
    | .Number v => some v
    | .String v => some ((parseF64 v.str).getD (F64.ofInt 0))
    | .Map v => some (F64.ofNat v.length)
    | .List v => some (F64.ofNat v.length)
    | .Reference _ _ r => toFloatF f r
    | .SelfReference w =>
      match w with
      | some r => toFloatF f r
      | none => some (F64.ofInt 0)
    | .Store r => toFloatF f r
    | .Take r => toFloatF f (takeOne r).fst
    | .Repeat v =>
      match v with
      | r :: _ => toFloatF f r
      | [] => some (F64.ofInt 0)
    | _ => some (F64.ofInt 0)

/-- Pending call of the fuel-indexed to_string transcription: a node, or
one of the two accumulator folds. -/
inductive StrCall where
  | node (d : BuilderDataType)
  | entries (acc : CowStr) (l : List (BuilderDataType × BuilderDataType))
  | elems (acc : CowStr) (l : List BuilderDataType)

/-- Fuel-indexed transcription of to_string on the tree model. -/
def toStrF : Nat → StrCall → Option CowStr
  | 0, _ => none
  | f + 1, c =>
    match c with
    | .node d =>
      match d with
      | .Empty => some (.Owned (""))
      | .Boolean v => some (if v then .Borrowed ("true") else .Borrowed ("false"))
      | .Integer v => some (.Owned (toString v))
      | .Unsigned v => some (.Owned (toString v))
      | .Number v => some (.Owned v.fmt)
      | .String v => some v
      | .Map v => toStrF f (.entries (.Owned ("")) v)
      | .List v => toStrF f (.elems (.Owned ("")) v)
      | .Reference _ _ r => toStrF f (.node r)
      | .SelfReference w =>
        match w with
        | some r => toStrF f (.node r)
        | none => some (.Owned (""))
      | .Store r => toStrF f (.node r)
      | .Take r => toStrF f (.node (takeOne r).fst)
      | _ => some (.Owned (""))
    | .entries s l =>
      match l with
      | [] => some s
      | (k, w) :: rest =>
        match toStrF f (.node k) with
        | some key =>
          if key.str.isEmpty then toStrF f (.entries s rest)
          else
            match toStrF f (.node w) with
            | some value =>
              if value.str.isEmpty then toStrF f (.entries s rest)
              else if s.str.isEmpty then
                toStrF f (.entries (.Owned (key.str ++ (":") ++ value.str)) rest)
              else
                toStrF f (.entries (.Owned (s.str ++ (",") ++ key.str ++ (":") ++ value.str)) rest)
            | none => none
        | none => none
    | .elems s l =>
      match l with
      | [] => some s
      | e :: rest =>
        if s.str.isEmpty then
          match toStrF f (.node e) with
          | some value => toStrF f (.elems value rest)
          | none => none
        else
          match toStrF f (.node e) with
          | some value =>
            if value.str.isEmpty then toStrF f (.elems s rest)
            else toStrF f (.elems (.Owned (s.str ++ (",") ++ value.str)) rest)
          | none => none

mutual

/-- Syntactic absence of PopArgument anywhere in a node (PopArgument is
the one arm handled by the owning evaluator but left to the todo macro by
the borrowing evaluator). -/
def popFree : BuilderDataType → Bool
  | .Map v => popFreeE v
  | .List v => popFreeL v
  | .Closure v => popFreeL v
  | .PopArgument => false
  | .Reference _ _ r => popFree r
  | .SelfReference w => match w with | some r => popFree r | none => true
  | .Store r => popFree r
  | .Take r => popFree r
  | .IfThenElse v => popFreeL v
  | .Repeat v => popFreeL v
  | .Range v => popFreeL v
  | .Sum v => popFreeL v
  | .Multiply v => popFreeL v
  | _ => true
termination_by d => sizeOf d

/-- popFree over a list of nodes. -/
def popFreeL : List BuilderDataType → Bool
  | [] => true
  | d :: rest => popFree d && popFreeL rest
termination_by l => sizeOf l

/-- popFree over a list of entries. -/
def popFreeE : List (BuilderDataType × BuilderDataType) → Bool
  | [] => true
  | (k, w) :: rest => popFree k && popFree w && popFreeE rest
termination_by l => sizeOf l

end

mutual

/-- Syntactic absence of TakeFromArgument, PopArgument and Take anywhere
in a node: evaluating such a node cannot mutate any argument slot. -/
def clean : BuilderDataType → Bool
  | .Map v => cleanE v
  | .List v => cleanL v
  | .Closure v => cleanL v
  | .TakeFromArgument _ => false
  | .PopArgument => false
  | .Take _ => false
  | .Reference _ _ r => clean r
  | .SelfReference w => match w with | some r => clean r | none => true
  | .Store r => clean r
  | .IfThenElse v => cleanL v
  | .Repeat v => cleanL v
  | .Range v => cleanL v
  | .Sum v => cleanL v
  | .Multiply v => cleanL v
  | _ => true
termination_by d => sizeOf d

/-- clean over a list of nodes. -/
def cleanL : List BuilderDataType → Bool
  | [] => true
  | d :: rest => clean d && cleanL rest
termination_by l => sizeOf l

/-- clean over a list of entries. -/
def cleanE : List (BuilderDataType × BuilderDataType) → Bool
  | [] => true
  | (k, w) :: rest => clean k && clean w && cleanE rest
termination_by l => sizeOf l

end

/-- Conversion applied to a resolve result to obtain the corresponding
resolve_to_bool result: a resolved node becomes its truth, anything else
is unchanged. -/
def boolify : EvalOut → EvalOut
  | .okD d s => .okBool (checkTrue d) s
  | r => r

/-- Chain of Reference wrappers around a node, each with a dead weak count
and the given strong-sharing flag. -/
def wrapChain : List Bool → BuilderDataType → BuilderDataType
  | [], n => n
  | sh :: rest, n => .Reference false sh (wrapChain rest n)

/-- Result forms reachable by resolve, resolve_clone, if_then_else and
if_then_else_ref: a resolved node, a returned error, or exhausted fuel. -/
def resolveOneShape : EvalOut → Prop
  | .okD _ _ => True
  | .err _ => True
  | .outOfFuel => True
  | _ => False

/-- Result forms reachable by resolve_to_bool. -/
def resolveBoolShape : EvalOut → Prop
  | .okBool _ _ => True
  | .err _ => True
  | .outOfFuel => True
  | _ => False

/-- Result forms reachable by the argument-collection loops. -/
def resolveAllShape : EvalOut → Prop
  | .okList _ _ => True
  | .err _ => True
  | .outOfFuel => True
  | _ => False

/-- C2: take_one returns and mutates exactly as specified: Empty yields
Empty; Boolean(b) yields Boolean(b) and sets a true source to false;
Integer(v) yields Integer(v) and the source becomes v-1 if v is positive
and 0 otherwise; Unsigned(v) yields Unsigned(v) and the source decrements
saturating at 0; List pops and yields the last element (Empty when the
list is empty); every other variant yields Empty and leaves the source
unchanged. -/
theorem take_one_spec :
    (takeOne .Empty = (.Empty, .Empty)) ∧
    (∀ b, takeOne (.Boolean b) = (.Boolean b, .Boolean false)) ∧
    (∀ v : Int, takeOne (.Integer v) =
      (.Integer v, .Integer (if 0 < v then v - 1 else 0))) ∧
    (∀ v : Nat, takeOne (.Unsigned v) = (.Unsigned v, .Unsigned (v - 1))) ∧
    (∀ l, takeOne (.List l) = ((l.getLast?).getD .Empty, .List l.dropLast)) ∧
    (takeOne (.List []) = (.Empty, .List [])) ∧
    (∀ v, takeOne (.Number v) = (.Empty, .Number v)) ∧
    (∀ s, takeOne (.String s) = (.Empty, .String s)) ∧
    (∀ v, takeOne (.Map v) = (.Empty, .Map v)) ∧
    (∀ v, takeOne (.Closure v) = (.Empty, .Closure v)) ∧
    (∀ a, takeOne (.Argument a) = (.Empty, .Argument a)) ∧
    (∀ a, takeOne (.TakeFromArgument a) = (.Empty, .TakeFromArgument a)) ∧
    (takeOne .PopArgument = (.Empty, .PopArgument)) ∧
    (∀ w sh r, takeOne (.Reference w sh r) = (.Empty, .Reference w sh r)) ∧
    (∀ w, takeOne (.SelfReference w) = (.Empty, .SelfReference w)) ∧
    (∀ r, takeOne (.Store r) = (.Empty, .Store r)) ∧
    (∀ r, takeOne (.Take r) = (.Empty, .Take r)) ∧
    (∀ v, takeOne (.IfThenElse v) = (.Empty, .IfThenElse v)) ∧
    (∀ v, takeOne (.Repeat v) = (.Empty, .Repeat v)) ∧
    (∀ v, takeOne (.Range v) = (.Empty, .Range v)) ∧
    (∀ v, takeOne (.Sum v) = (.Empty, .Sum v)) ∧
    (∀ v, takeOne (.Multiply v) = (.Empty, .Multiply v)) ∧
    (takeOne .Index = (.Empty, .Index)) ∧
    (takeOne .Unique = (.Empty, .Unique)) := by
  refine ⟨rfl, fun b => by cases b <;> rfl, fun v => rfl, fun v => ?_, fun l => rfl,
    rfl, fun v => rfl, fun s => rfl, fun v => rfl, fun v => rfl, fun a => rfl,
    fun a => rfl, rfl, fun w sh r => rfl, fun w => rfl, fun r => rfl, fun r => rfl,
    fun v => rfl, fun v => rfl, fun v => rfl, fun v => rfl, fun v => rfl, rfl, rfl⟩
  cases v with
  | zero => rfl
  | succ n => simp [takeOne]

/-- C4 counterexample: on a well-formed IfThenElse whose condition is true
and whose then-branch is true, check_true returns false, not the truth of
the selected branch (which is true). -/
theorem check_true_ifte_counterexample :
    checkTrue (.IfThenElse [.Boolean true, .Boolean true, .Boolean false]) = false ∧
    checkTrue (.Boolean true) = true := by
  constructor <;> simp [checkTrue]

/-- C4 amended: the truth coercion of src/datatype.rs returns false for
every IfThenElse node, well-formed or malformed; branch-selected truth is
performed only by the context resolver (resolve_to_bool), not by
check_true. -/
theorem check_true_ifte_amended : ∀ v, checkTrue (.IfThenElse v) = false := by
  intro v
  simp [checkTrue]

/-- C5: evaluating Empty or a reserved variant (Range, Sum, Multiply,
Unique) in either evaluator reaches the todo macro, which panics
(modelled by fatalTodo); in particular no BuilderError value is returned
to the caller. -/
theorem unimplemented_variants_panic :
    ∀ (f : Nat) (s : Closure) (v : List BuilderDataType),
    evalOwn (f + 1) s .Empty = .fatalTodo ∧
    evalRef (f + 1) s .Empty = .fatalTodo ∧
    evalOwn (f + 1) s (.Range v) = .fatalTodo ∧
    evalRef (f + 1) s (.Range v) = .fatalTodo ∧
    evalOwn (f + 1) s (.Sum v) = .fatalTodo ∧
    evalRef (f + 1) s (.Sum v) = .fatalTodo ∧
    evalOwn (f + 1) s (.Multiply v) = .fatalTodo ∧
    evalRef (f + 1) s (.Multiply v) = .fatalTodo ∧
    evalOwn (f + 1) s .Unique = .fatalTodo ∧
    evalRef (f + 1) s .Unique = .fatalTodo ∧
    (∀ e : BuilderError, evalOwn (f + 1) s .Empty ≠ .err e) := by
  intro f s v
  refine ⟨rfl, rfl, rfl, rfl, rfl, rfl, rfl, rfl, rfl, rfl, fun e h => ?_⟩
  exact EvalOut.noConfusion h

/-- C7: the map adapters (owning and borrowing have identical logic) are
constructed with an empty stash; a value pull with an empty stash returns
the InvalidMapAccess error; a key pull stashes exactly the pulled key's
value; a value pull with a full stash delivers the stashed value, empties
the stash, and a second value pull then errors. -/
theorem map_access_value_protocol :
    (∀ v, (mkMapAccess v).leftover = none) ∧
    (∀ m : BuilderMapAccessM, m.leftover = none →
      nextValueSeed m = .error .InvalidMapAccess) ∧
    (∀ (m : BuilderMapAccessM) k b rest, m.data = (k, b) :: rest →
      nextKeySeed m = some (k, ⟨rest, some b, m.sizeHint⟩)) ∧
    (∀ (m : BuilderMapAccessM) b, m.leftover = some b →
      nextValueSeed m = .ok (b, { m with leftover := none }) ∧
      nextValueSeed { m with leftover := none } = .error .InvalidMapAccess) := by
  refine ⟨fun v => rfl, fun m h => ?_, fun m k b rest h => ?_, fun m b h => ⟨?_, ?_⟩⟩
  · simp [nextValueSeed, h]
  · simp [nextKeySeed, h]
  · simp [nextValueSeed, h]
  · simp [nextValueSeed]

/-- Witness for C7 at a concrete adapter: a freshly constructed map
adapter has an empty stash and its first value pull errors. -/
theorem map_access_value_protocol_witness :
    (mkMapAccess [(.Empty, .Integer 1)]).leftover = none ∧
    nextValueSeed (mkMapAccess [(.Empty, .Integer 1)]) = .error .InvalidMapAccess :=
  ⟨rfl, map_access_value_protocol.2.1 (mkMapAccess [(.Empty, .Integer 1)]) rfl⟩

/-- C8 counterexample: after one pull from a two-element list adapter the
size hint still reads 2 while only one element remains, so the hint is
not the remaining count. -/
theorem size_hint_counterexample :
    (nextElementSeed (mkListAccess [.Integer 1, .Integer 2])).map
      (fun p => (p.snd.sizeHint, p.snd.data.length)) = some (some 2, 1) ∧
    some (2 : Nat) ≠ some (1 : Nat) := by
  refine ⟨rfl, ?_⟩
  simp

/-- C8 amended: the size hint of every adapter is frozen at construction:
a List or Map adapter reports the container length and a Repeat adapter
reports the decoded count, and no pull (element, key, value or entry)
changes the reported hint. -/
theorem size_hint_frozen :
    (∀ v, (mkListAccess v).sizeHint = some v.length) ∧
    (∀ v, (mkMapAccess v).sizeHint = some v.length) ∧
    ((mkRepeatAccess []).sizeHint = some 0) ∧
    (∀ cnt rest, (mkRepeatAccess (cnt :: rest)).sizeHint = some (toUnsigned cnt)) ∧
    (∀ (m : BuilderListAccessM) d m2, nextElementSeed m = some (d, m2) →
      m2.sizeHint = m.sizeHint) ∧
    (∀ (m : BuilderMapAccessM) k m2, nextKeySeed m = some (k, m2) →
      m2.sizeHint = m.sizeHint) ∧
    (∀ (m : BuilderMapAccessM) b m2, nextValueSeed m = .ok (b, m2) →
      m2.sizeHint = m.sizeHint) ∧
    (∀ (m : BuilderMapAccessM) e m2, nextEntrySeed m = some (e, m2) →
      m2.sizeHint = m.sizeHint) := by
  refine ⟨fun v => rfl, fun v => rfl, rfl, fun cnt rest => rfl, ?_, ?_, ?_, ?_⟩
  · intro m d m2 h
    match hd : m.data with
    | [] => simp [nextElementSeed, hd] at h
    | x :: rest =>
      simp [nextElementSeed, hd] at h
      cases h.2
      rfl
  · intro m k m2 h
    match hd : m.data with
    | [] => simp [nextKeySeed, hd] at h
    | (a, b) :: rest =>
      simp [nextKeySeed, hd] at h
      cases h.2
      rfl
  · intro m b m2 h
    match hd : m.leftover with
    | none => simp [nextValueSeed, hd] at h
    | some l =>
      simp [nextValueSeed, hd] at h
      cases h.2
      rfl
  · intro m e m2 h
    match hd : m.data with
    | [] => simp [nextEntrySeed, hd] at h
    | (a, b) :: rest =>
      simp [nextEntrySeed, hd] at h
      cases h.2
      rfl

/-- Witness for C8 amended at a concrete adapter: pulling the single
element of a one-element list adapter leaves the hint at its construction
value. -/
theorem size_hint_frozen_witness :
    nextElementSeed (mkListAccess [.Integer 1]) =
      some (.Integer 1, ⟨[], some 1, 1⟩) ∧
    (⟨[], some 1, 1⟩ : BuilderListAccessM).sizeHint =
      (mkListAccess [.Integer 1]).sizeHint :=
  ⟨rfl, size_hint_frozen.2.2.2.2.1 (mkListAccess [.Integer 1]) (.Integer 1)
    ⟨[], some 1, 1⟩ rfl⟩

/-- C6: the invalid-function-argument error arises at exactly the four
guarded sites of the evaluator: an Argument or TakeFromArgument index out
of bounds (in bounds the evaluation proceeds on the slot), PopArgument on
an empty stack (otherwise it proceeds on the popped value), a Closure with
no children, and an IfThenElse with fewer than three children (with three
or more the selector proceeds to a branch). -/
theorem invalid_function_argument_cases :
    ∀ (f : Nat) (s : Closure),
    (∀ a, evalOwn (f + 1) s (.Argument a) =
      (match s.args.get? a with
       | some p => evalOwn f s p
       | none => .err .InvalidFunctionArgument)) ∧
    (∀ a, evalOwn (f + 1) s (.TakeFromArgument a) =
      (match s.args.get? a with
       | some p =>
         evalOwn f { s with args := s.args.set a (takeOne p).snd } (takeOne p).fst
       | none => .err .InvalidFunctionArgument)) ∧
    (evalOwn (f + 1) s .PopArgument =
      (match s.args.getLast? with
       | some p => evalOwn f { s with args := s.args.dropLast } p
       | none => .err .InvalidFunctionArgument)) ∧
    (evalOwn (f + 1) s (.Closure []) = .err .InvalidFunctionArgument) ∧
    (evalRef (f + 1) s (.Closure []) = .err .InvalidFunctionArgument) ∧
    (∀ v, v.length < 3 →
      evalCall (f + 1) (.ifteOwn s v) = .err .InvalidFunctionArgument ∧
      evalCall (f + 1) (.ifteRef s v) = .err .InvalidFunctionArgument) ∧
    (∀ c t e rest,
      evalCall (f + 1) (.ifteOwn s (c :: t :: e :: rest)) =
        (match evalCall f (.resolveOne s c) with
         | .okD c2 s2 => if checkTrue c2 then .okD t s2 else .okD e s2
         | r => r)) ∧
    (∀ v, evalOwn (f + 1) s (.IfThenElse v) =
      (match evalCall f (.ifteOwn s v) with
       | .okD b s2 => evalOwn f s2 b
       | r => r)) := by
  intro f s
  refine ⟨fun a => ?_, fun a => ?_, ?_, rfl, rfl, fun v hv => ?_, fun c t e rest => rfl,
    fun v => rfl⟩
  · cases h : s.args[a]? <;>
      simp [evalOwn, evalCall, List.get?_eq_getElem?, h]
  · cases h : s.args[a]? <;>
      simp [evalOwn, evalCall, takeFromArgument, List.get?_eq_getElem?, h]
  · cases h : s.args.getLast? <;> simp [evalOwn, evalCall, h]
  · match v with
    | [] => exact ⟨rfl, rfl⟩
    | [c] => exact ⟨rfl, rfl⟩
    | [c, t] => exact ⟨rfl, rfl⟩
    | c :: t :: e :: rest => exact absurd hv (by simp)

/-- Witness for C6 at concrete inputs: Argument 0 in an empty context and
a two-child IfThenElse both return the invalid-function-argument error. -/
theorem invalid_function_argument_cases_witness :
    (evalOwn 1 freshClosure (.Argument 0) =
      (match freshClosure.args.get? 0 with
       | some p => evalOwn 0 freshClosure p
       | none => .err .InvalidFunctionArgument)) ∧
    ([BuilderDataType.Boolean true, .Boolean false].length < 3 ∧
      evalCall 1 (.ifteOwn freshClosure [.Boolean true, .Boolean false]) =
        .err .InvalidFunctionArgument) :=
  ⟨(invalid_function_argument_cases 0 freshClosure).1 0,
   by decide,
   ((invalid_function_argument_cases 0 freshClosure).2.2.2.2.2.1
     [.Boolean true, .Boolean false] (by decide)).1⟩

/-- C1 counterexample: for the closure node with body List[Argument(1)]
and bindings a0 = Integer 5, a1 = Integer 7, the claim (argument slots are
the resolved bindings with slot 0 holding a0) predicts that Argument(1)
yields the resolved a1 = 7; the evaluator instead yields 5, because slot 0
holds the resolved body and slot i+1 holds the resolved a-i. -/
theorem closure_slot_counterexample :
    fromData 12 (.Closure [.List [.Argument 1], .Integer 5, .Integer 7]) =
      .ok (.seq [.i64 5]) freshClosure ∧
    Value.seq [.i64 5] ≠ Value.seq [.i64 7] := by
  refine ⟨rfl, ?_⟩
  simp

theorem resolve_shapes : ∀ f : Nat,
    (∀ s d, resolveOneShape (evalCall f (.resolveOne s d))) ∧
    (∀ s d, resolveOneShape (evalCall f (.resolveCloneOne s d))) ∧
    (∀ s v, resolveOneShape (evalCall f (.ifteOwn s v))) ∧
    (∀ s v, resolveOneShape (evalCall f (.ifteRef s v))) ∧
    (∀ s d, resolveBoolShape (evalCall f (.resolveBool s d))) ∧
    (∀ s acc l, resolveAllShape (evalCall f (.resolveAllOwn s acc l))) ∧
    (∀ s acc l, resolveAllShape (evalCall f (.resolveAllRef s acc l))) := by
  intro f
  induction f with
  | zero =>
    exact ⟨fun s d => trivial, fun s d => trivial, fun s v => trivial,
      fun s v => trivial, fun s d => trivial, fun s acc l => trivial,
      fun s acc l => trivial⟩
  | succ f ih =>
    obtain ⟨ih1, ih2, ih3, ih4, ih5, ih6, ih7⟩ := ih
    refine ⟨?_, ?_, ?_, ?_, ?_, ?_, ?_⟩
    · intro s d
      cases d <;> try exact trivial
      case Argument a =>
        cases h : cloneArgument s a with
        | ok p => simp only [evalCall, h]; trivial
        | error e => simp only [evalCall, h]; trivial
      case TakeFromArgument a =>
        cases h : takeFromArgument s a with
        | ok pr => obtain ⟨p, s2⟩ := pr; simp only [evalCall, h]; trivial
        | error e => simp only [evalCall, h]; trivial
      case IfThenElse v => exact ih3 s v
    · intro s d
      cases d <;> try exact trivial
      case Argument a =>
        cases h : cloneArgument s a with
        | ok p => simp only [evalCall, h]; trivial
        | error e => simp only [evalCall, h]; trivial
      case TakeFromArgument a =>
        cases h : takeFromArgument s a with
        | ok pr => obtain ⟨p, s2⟩ := pr; simp only [evalCall, h]; trivial
        | error e => simp only [evalCall, h]; trivial
      case IfThenElse v => exact ih4 s v
    · intro s v
      match v with
      | [] => trivial
      | [c] => trivial
      | [c, t] => trivial
      | c :: t :: e :: rest =>
        have h1 := ih1 s c
        cases hr : evalCall f (.resolveOne s c) with
        | okD c2 s2 =>
          simp only [evalCall, hr]
          cases checkTrue c2 <;> simp <;> trivial
        | err e2 => simp only [evalCall, hr]; trivial
        | outOfFuel => simp only [evalCall, hr]; trivial
        | ok val s2 => rw [hr] at h1; exact h1.elim
        | okList l2 s2 => rw [hr] at h1; exact h1.elim
        | okBool b2 s2 => rw [hr] at h1; exact h1.elim
        | fatalTodo => rw [hr] at h1; exact h1.elim
    · intro s v
      match v with
      | [] => trivial
      | [c] => trivial
      | [c, t] => trivial
      | c :: t :: e :: rest =>
        have h1 := ih5 s c
        cases hr : evalCall f (.resolveBool s c) with
        | okBool b2 s2 =>
          simp only [evalCall, hr]
          cases b2 <;> trivial
        | err e2 => simp only [evalCall, hr]; trivial
        | outOfFuel => simp only [evalCall, hr]; trivial
        | ok val s2 => rw [hr] at h1; exact h1.elim
        | okList l2 s2 => rw [hr] at h1; exact h1.elim
        | okD d2 s2 => rw [hr] at h1; exact h1.elim
        | fatalTodo => rw [hr] at h1; exact h1.elim
    · intro s d
      cases d <;> try exact trivial
      case Argument a =>
        cases h : getArgument s a with
        | ok p => simp only [evalCall, h]; trivial
        | error e => simp only [evalCall, h]; trivial
      case TakeFromArgument a =>
        cases h : takeFromArgument s a with
        | ok pr => obtain ⟨p, s2⟩ := pr; simp only [evalCall, h]; trivial
        | error e => simp only [evalCall, h]; trivial
      case IfThenElse v =>
        have h1 := ih4 s v
        cases hr : evalCall f (.ifteRef s v) with
        | okD d2 s2 => simp only [evalCall, hr]; trivial
        | err e2 => simp only [evalCall, hr]; trivial
        | outOfFuel => simp only [evalCall, hr]; trivial
        | ok val s2 => rw [hr] at h1; exact h1.elim
        | okList l2 s2 => rw [hr] at h1; exact h1.elim
        | okBool b2 s2 => rw [hr] at h1; exact h1.elim
        | fatalTodo => rw [hr] at h1; exact h1.elim
    · intro s acc l
      match l with
      | [] => trivial
      | d :: rest =>
        have h1 := ih1 s d
        cases hr : evalCall f (.resolveOne s d) with
        | okD p s2 => simp only [evalCall, hr]; exact ih6 s2 (acc ++ [p]) rest
        | err e2 => simp only [evalCall, hr]; trivial
        | outOfFuel => simp only [evalCall, hr]; trivial
        | ok val s2 => rw [hr] at h1; exact h1.elim
        | okList l2 s2 => rw [hr] at h1; exact h1.elim
        | okBool b2 s2 => rw [hr] at h1; exact h1.elim
        | fatalTodo => rw [hr] at h1; exact h1.elim
    · intro s acc l
      match l with
      | [] => trivial
      | d :: rest =>
        have h1 := ih2 s d
        cases hr : evalCall f (.resolveCloneOne s d) with
        | okD p s2 => simp only [evalCall, hr]; exact ih7 s2 (acc ++ [p]) rest
        | err e2 => simp only [evalCall, hr]; trivial
        | outOfFuel => simp only [evalCall, hr]; trivial
        | ok val s2 => rw [hr] at h1; exact h1.elim
        | okList l2 s2 => rw [hr] at h1; exact h1.elim
        | okBool b2 s2 => rw [hr] at h1; exact h1.elim
        | fatalTodo => rw [hr] at h1; exact h1.elim

theorem resolveAllOwn_length :
    ∀ (f : Nat) (s : Closure) (acc l out : List BuilderDataType) (s2 : Closure),
      evalCall f (.resolveAllOwn s acc l) = .okList out s2 →
      out.length = acc.length + l.length := by
  intro f
  induction f with
  | zero =>
    intro s acc l out s2 h
    exact absurd h (by simp [evalCall])
  | succ f ih =>
    intro s acc l out s2 h
    match l with
    | [] =>
      simp only [evalCall] at h
      cases h
      simp
    | d :: rest =>
      have h1 := (resolve_shapes f).1 s d
      cases hr : evalCall f (.resolveOne s d) with
      | okD p s3 =>
        simp only [evalCall, hr] at h
        have := ih s3 (acc ++ [p]) rest out s2 h
        simp at this
        simp [this]
        omega
      | err e2 =>
        simp only [evalCall, hr] at h
        exact EvalOut.noConfusion h
      | outOfFuel =>
        simp only [evalCall, hr] at h
        exact EvalOut.noConfusion h
      | ok val s3 => rw [hr] at h1; exact h1.elim
      | okList l2 s3 => rw [hr] at h1; exact h1.elim
      | okBool b2 s3 => rw [hr] at h1; exact h1.elim
      | fatalTodo => rw [hr] at h1; exact h1.elim

/-- C1 amended: entering a Closure in owning mode resolves all children,
body included, against the enclosing context; the new context consists of
those resolved children (slot 0 is the resolved body, slot i+1 the
resolved binding a-i) with the enclosing index; the original body is then
evaluated in the new context and the enclosing context resumes afterwards.
Inside the body an in-bounds Argument(i) evaluates to slot i of that
vector. -/
theorem closure_resolved_slots :
    ∀ (f : Nat) (s : Closure) (b : BuilderDataType)
      (rest args2 : List BuilderDataType) (s2 : Closure),
    evalCall f (.resolveAllOwn s [] (b :: rest)) = .okList args2 s2 →
    (evalOwn (f + 1) s (.Closure (b :: rest)) =
      (match evalOwn f ⟨args2, s2.index⟩ b with
       | .ok val _ => .ok val s2
       | r => r)) ∧
    args2.length = rest.length + 1 ∧
    (∀ i p, args2.get? i = some p →
      ∀ (g ix : Nat),
        evalOwn (g + 1) ⟨args2, ix⟩ (.Argument i) = evalOwn g ⟨args2, ix⟩ p) := by
  intro f s b rest args2 s2 h
  refine ⟨?_, ?_, ?_⟩
  · simp only [evalOwn, evalCall, h]
  · have := resolveAllOwn_length f s [] (b :: rest) args2 s2 h
    simpa using this
  · intro i p hp g ix
    simp only [evalOwn, evalCall]
    rw [hp]

/-- Witness for C1 amended at a concrete closure: with body Integer 1 and
binding Integer 5 the resolution succeeds and the dispatch equation is
obtained from the theorem. -/
theorem closure_resolved_slots_witness :
    evalCall 8 (.resolveAllOwn freshClosure [] [.Integer 1, .Integer 5]) =
      .okList [.Integer 1, .Integer 5] freshClosure ∧
    evalOwn 9 freshClosure (.Closure [.Integer 1, .Integer 5]) =
      (match evalOwn 8 ⟨[.Integer 1, .Integer 5], freshClosure.index⟩ (.Integer 1) with
       | .ok val _ => .ok val freshClosure
       | r => r) :=
  ⟨rfl, (closure_resolved_slots 8 freshClosure (.Integer 1) [.Integer 5]
    [.Integer 1, .Integer 5] freshClosure rfl).1⟩

/-- C3 counterexample: on the value built by Rc::new_cyclic whose content
is a SelfReference to itself, check_true recurses through the upgrade
forever: it returns no answer for any amount of fuel, so the truth query
is not total on cyclic structures. -/
theorem check_true_cycle_counterexample : checkTrueCycleDiverges := by
  intro f
  induction f with
  | zero => intro cells; rfl
  | succ f ih => intro cells; exact ih cells

theorem builderDataType_sizeOf_pos (d : BuilderDataType) : 0 < sizeOf d := by
  cases d <;> simp_arith

theorem checkTrueF_agree :
    ∀ (f : Nat) (d : BuilderDataType), sizeOf d ≤ f →
      checkTrueF f d = some (checkTrue d) := by
  intro f
  induction f with
  | zero =>
    intro d hd
    have := builderDataType_sizeOf_pos d
    omega
  | succ f ih =>
    intro d hd
    cases d with
    | Reference w sh r =>
      have hr : sizeOf r ≤ f := by simp at hd; omega
      simp [checkTrueF, checkTrue, ih r hr]
    | SelfReference w =>
      cases w with
      | none => simp [checkTrueF, checkTrue]
      | some r =>
        have hr : sizeOf r ≤ f := by simp at hd; omega
        simp [checkTrueF, checkTrue, ih r hr]
    | Store r =>
      have hr : sizeOf r ≤ f := by simp at hd; omega
      simp [checkTrueF, checkTrue, ih r hr]
    | Take r =>
      have hr : sizeOf (takeOne r).fst ≤ f := by
        have := sizeOf_takeOne_fst_le r
        simp at hd; omega
      simp [checkTrueF, checkTrue, ih _ hr]
    | Repeat v =>
      cases v with
      | nil => simp [checkTrueF, checkTrue]
      | cons r t =>
        have hr : sizeOf r ≤ f := by simp at hd; omega
        simp [checkTrueF, checkTrue, ih r hr]
    | _ => simp [checkTrueF, checkTrue]

theorem toUnsignedF_agree :
    ∀ (f : Nat) (d : BuilderDataType), sizeOf d ≤ f →
      toUnsignedF f d = some (toUnsigned d) := by
  intro f
  induction f with
  | zero =>
    intro d hd
    have := builderDataType_sizeOf_pos d
    omega
  | succ f ih =>
    intro d hd
    cases d with
    | Reference w sh r =>
      have hr : sizeOf r ≤ f := by simp at hd; omega
      simp [toUnsignedF, toUnsigned, ih r hr]
    | SelfReference w =>
      cases w with
      | none => simp [toUnsignedF, toUnsigned]
      | some r =>
        have hr : sizeOf r ≤ f := by simp at hd; omega
        simp [toUnsignedF, toUnsigned, ih r hr]
    | Store r =>
      have hr : sizeOf r ≤ f := by simp at hd; omega
      simp [toUnsignedF, toUnsigned, ih r hr]
    | Take r =>
      have hr : sizeOf (takeOne r).fst ≤ f := by
        have := sizeOf_takeOne_fst_le r
        simp at hd; omega
      simp [toUnsignedF, toUnsigned, ih _ hr]
    | Repeat v =>
      cases v with
      | nil => simp [toUnsignedF, toUnsigned]
      | cons r t =>
        have hr : sizeOf r ≤ f := by simp at hd; omega
        simp [toUnsignedF, toUnsigned, ih r hr]
    | _ => simp [toUnsignedF, toUnsigned]

theorem toSignedF_agree :
    ∀ (f : Nat) (d : BuilderDataType), sizeOf d ≤ f →
      toSignedF f d = some (toSigned d) := by
  intro f
  induction f with
  | zero =>
    intro d hd
    have := builderDataType_sizeOf_pos d
    omega
  | succ f ih =>
    intro d hd
    cases d with
    | Reference w sh r =>
      have hr : sizeOf r ≤ f := by simp at hd; omega
      simp [toSignedF, toSigned, ih r hr]
    | SelfReference w =>
      cases w with
      | none => simp [toSignedF, toSigned]
      | some r =>
        have hr : sizeOf r ≤ f := by simp at hd; omega
        simp [toSignedF, toSigned, ih r hr]
    | Store r =>
      have hr : sizeOf r ≤ f := by simp at hd; omega
      simp [toSignedF, toSigned, ih r hr]
    | Take r =>
      have hr : sizeOf (takeOne r).fst ≤ f := by
        have := sizeOf_takeOne_fst_le r
        simp at hd; omega
      simp [toSignedF, toSigned, ih _ hr]
    | Repeat v =>
      cases v with
      | nil => simp [toSignedF, toSigned]
      | cons r t =>
        have hr : sizeOf r ≤ f := by simp at hd; omega
        simp [toSignedF, toSigned, ih r hr]
    | _ => simp [toSignedF, toSigned]

theorem toFloatF_agree :
    ∀ (f : Nat) (d : BuilderDataType), sizeOf d ≤ f →
      toFloatF f d = some (toFloat d) := by
  intro f
  induction f with
  | zero =>
    intro d hd
    have := builderDataType_sizeOf_pos d
    omega
  | succ f ih =>
    intro d hd
    cases d with
    | Reference w sh r =>
      have hr : sizeOf r ≤ f := by simp at hd; omega
      simp [toFloatF, toFloat, ih r hr]
    | SelfReference w =>
      cases w with
      | none => simp [toFloatF, toFloat]
      | some r =>
        have hr : sizeOf r ≤ f := by simp at hd; omega
        simp [toFloatF, toFloat, ih r hr]
    | Store r =>
      have hr : sizeOf r ≤ f := by simp at hd; omega
      simp [toFloatF, toFloat, ih r hr]
    | Take r =>
      have hr : sizeOf (takeOne r).fst ≤ f := by
        have := sizeOf_takeOne_fst_le r
        simp at hd; omega
      simp [toFloatF, toFloat, ih _ hr]
    | Repeat v =>
      cases v with
      | nil => simp [toFloatF, toFloat]
      | cons r t =>
        have hr : sizeOf r ≤ f := by simp at hd; omega
        simp [toFloatF, toFloat, ih r hr]
    | _ => simp [toFloatF, toFloat]

theorem toStrF_agree : ∀ f : Nat,
    (∀ d, sizeOf d ≤ f → toStrF f (.node d) = some (toStr d)) ∧
    (∀ s l, sizeOf l ≤ f → toStrF f (.entries s l) = some (toStrEntries s l)) ∧
    (∀ s l, sizeOf l ≤ f → toStrF f (.elems s l) = some (toStrElems s l)) := by
  intro f
  induction f with
  | zero =>
    refine ⟨fun d hd => ?_, fun s l hl => ?_, fun s l hl => ?_⟩
    · have := builderDataType_sizeOf_pos d
      omega
    · cases l <;> simp at hl
    · cases l <;> simp at hl
  | succ f ih =>
    obtain ⟨ih1, ih2, ih3⟩ := ih
    refine ⟨fun d hd => ?_, fun s l hl => ?_, fun s l hl => ?_⟩
    · cases d with
      | Map v =>
        have hv : sizeOf v ≤ f := by simp at hd; omega
        simp [toStrF, toStr, ih2 (.Owned ("")) v hv]
      | List v =>
        have hv : sizeOf v ≤ f := by simp at hd; omega
        simp [toStrF, toStr, ih3 (.Owned ("")) v hv]
      | Reference w sh r =>
        have hr : sizeOf r ≤ f := by simp at hd; omega
        simp [toStrF, toStr, ih1 r hr]
      | SelfReference w =>
        cases w with
        | none => simp [toStrF, toStr]
        | some r =>
          have hr : sizeOf r ≤ f := by simp at hd; omega
          simp [toStrF, toStr, ih1 r hr]
      | Store r =>
        have hr : sizeOf r ≤ f := by simp at hd; omega
        simp [toStrF, toStr, ih1 r hr]
      | Take r =>
        have hr : sizeOf (takeOne r).fst ≤ f := by
          have := sizeOf_takeOne_fst_le r
          simp at hd; omega
        simp [toStrF, toStr, ih1 _ hr]
      | _ => simp [toStrF, toStr]
    · cases l with
      | nil => simp [toStrF, toStrEntries]
      | cons e rest =>
        obtain ⟨k, w⟩ := e
        have hk : sizeOf k ≤ f := by simp at hl; omega
        have hw : sizeOf w ≤ f := by simp at hl; omega
        have hrest : sizeOf rest ≤ f := by simp at hl; omega
        have e1 := ih1 k hk
        have e2 := ih1 w hw
        simp only [toStrF, e1, e2]
        by_cases h1 : (toStr k).str.isEmpty
        · simp [h1, toStrEntries, ih2 s rest hrest]
        · by_cases h2 : (toStr w).str.isEmpty
          · simp [h1, h2, toStrEntries, ih2 s rest hrest]
          · by_cases h3 : s.str.isEmpty
            · simp [h1, h2, h3, toStrEntries, ih2 _ rest hrest]
            · simp [h1, h2, h3, toStrEntries, ih2 _ rest hrest]
    · cases l with
      | nil => simp [toStrF, toStrElems]
      | cons e rest =>
        have he : sizeOf e ≤ f := by simp at hl; omega
        have hrest : sizeOf rest ≤ f := by simp at hl; omega
        have e1 := ih1 e he
        simp only [toStrF, e1]
        by_cases h3 : s.str.isEmpty
        · simp [h3, toStrElems, ih3 _ rest hrest]
        · by_cases h2 : (toStr e).str.isEmpty
          · simp [h3, h2, toStrElems, ih3 s rest hrest]
          · simp [h3, h2, toStrElems, ih3 _ rest hrest]

/-- C3 amended: on every finite tree value (no reference cycles) each of
the recursive coercion queries terminates within fuel proportional to the
size of the node and returns the same value as its total transcription,
with no error path (take_one is not recursive and is total outright);
totality fails only on cyclic structures, as the separate counterexample
shows. -/
theorem coercion_queries_total_acyclic :
    ∀ (f : Nat) (d : BuilderDataType), sizeOf d ≤ f →
      checkTrueF f d = some (checkTrue d) ∧
      toUnsignedF f d = some (toUnsigned d) ∧
      toSignedF f d = some (toSigned d) ∧
      toFloatF f d = some (toFloat d) ∧
      toStrF f (.node d) = some (toStr d) :=
  fun f d h =>
    ⟨checkTrueF_agree f d h, toUnsignedF_agree f d h, toSignedF_agree f d h,
     toFloatF_agree f d h, (toStrF_agree f).1 d h⟩

/-- Witness for C3 amended on a concrete consuming node. -/
theorem coercion_queries_total_acyclic_witness :
    sizeOf (BuilderDataType.Take (.List [.Boolean true])) ≤ 32 ∧
    checkTrueF 32 (.Take (.List [.Boolean true])) =
      some (checkTrue (.Take (.List [.Boolean true]))) :=
  ⟨by simp, (coercion_queries_total_acyclic 32 (.Take (.List [.Boolean true]))
    (by simp)).1⟩

theorem popFreeL_mem :
    ∀ (l : List BuilderDataType) (d : BuilderDataType),
      popFreeL l = true → d ∈ l → popFree d = true := by
  intro l
  induction l with
  | nil => intro d h hm; cases hm
  | cons x rest ih =>
    intro d h hm
    simp [popFreeL] at h
    cases hm with
    | head => exact h.1
    | tail _ hm2 => exact ih d h.2 hm2

theorem ifte_okD_mem :
    ∀ (f : Nat) (s : Closure) (v : List BuilderDataType) (b : BuilderDataType)
      (s2 : Closure), evalCall f (.ifteOwn s v) = .okD b s2 → b ∈ v := by
  intro f s v b s2 h
  match f with
  | 0 => exact absurd h (by simp [evalCall])
  | g + 1 =>
    match v with
    | [] => exact absurd h (by simp [evalCall])
    | [c] => exact absurd h (by simp [evalCall])
    | [c, t] => exact absurd h (by simp [evalCall])
    | c :: t :: e :: rest =>
      cases hr : evalCall g (.resolveOne s c) with
      | okD c2 s3 =>
        simp only [evalCall, hr] at h
        cases hb : checkTrue c2 <;> rw [hb] at h <;> simp at h
        · rw [← h.1]; simp
        · rw [← h.1]; simp
      | ok val s3 => simp only [evalCall, hr] at h; exact absurd h (by simp)
      | okList l2 s3 => simp only [evalCall, hr] at h; exact absurd h (by simp)
      | okBool b2 s3 => simp only [evalCall, hr] at h; exact absurd h (by simp)
      | err e2 => simp only [evalCall, hr] at h; exact absurd h (by simp)
      | fatalTodo => simp only [evalCall, hr] at h; exact absurd h (by simp)
      | outOfFuel => simp only [evalCall, hr] at h; exact absurd h (by simp)

theorem resolve_ref_own_agree : ∀ f : Nat,
    (∀ s d, evalCall f (.resolveCloneOne s d) = evalCall f (.resolveOne s d)) ∧
    (∀ s v, evalCall f (.ifteRef s v) = evalCall f (.ifteOwn s v)) ∧
    (∀ s d, evalCall f (.resolveBool s d) = boolify (evalCall f (.resolveOne s d))) ∧
    (∀ s acc l, evalCall f (.resolveAllRef s acc l) = evalCall f (.resolveAllOwn s acc l)) := by
  intro f
  induction f with
  | zero =>
    exact ⟨fun s d => rfl, fun s v => rfl, fun s d => rfl, fun s acc l => rfl⟩
  | succ f ih =>
    obtain ⟨ihC, ihI, ihB, ihA⟩ := ih
    refine ⟨?_, ?_, ?_, ?_⟩
    · intro s d
      cases d <;> try rfl
      case IfThenElse v => exact ihI s v
    · intro s v
      match v with
      | [] => rfl
      | [c] => rfl
      | [c, t] => rfl
      | c :: t :: e :: rest =>
        simp only [evalCall, ihB s c]
        cases hr : evalCall f (.resolveOne s c) with
        | okD c2 s2 =>
          simp only [hr, boolify]
          cases hb : checkTrue c2 <;> simp
        | okBool b2 s2 =>
          have h1 := (resolve_shapes f).1 s c
          rw [hr] at h1
          exact h1.elim
        | ok val s2 => simp [hr, boolify]
        | okList l2 s2 => simp [hr, boolify]
        | err e2 => simp [hr, boolify]
        | fatalTodo => simp [hr, boolify]
        | outOfFuel => simp [hr, boolify]
    · intro s d
      cases d <;> try rfl
      case Argument a =>
        cases h : s.args[a]? <;>
          simp [evalCall, getArgument, cloneArgument, List.get?_eq_getElem?, h, boolify]
      case TakeFromArgument a =>
        cases h : takeFromArgument s a with
        | ok pr =>
          obtain ⟨p, s2⟩ := pr
          simp [evalCall, h, boolify]
        | error e => simp [evalCall, h, boolify]
      case IfThenElse v =>
        simp only [evalCall, ihI s v]
        cases hr : evalCall f (.ifteOwn s v) <;> simp [hr, boolify]
    · intro s acc l
      match l with
      | [] => rfl
      | d :: rest =>
        simp only [evalCall, ihC s d]
        cases hr : evalCall f (.resolveOne s d) with
        | okD p s2 => simp [hr, ihA s2 (acc ++ [p]) rest]
        | ok val s2 => simp [hr]
        | okList l2 s2 => simp [hr]
        | okBool b2 s2 => simp [hr]
        | err e2 => simp [hr]
        | fatalTodo => simp [hr]
        | outOfFuel => simp [hr]

theorem ref_own_agree : ∀ f : Nat,
    (∀ s d, popFree d = true →
      evalCall f (.ref s d) = evalCall f (.own s d)) ∧
    (∀ s ix acc l, popFreeL l = true →
      evalCall f (.seqRef s ix acc l) = evalCall f (.seqOwn s ix acc l)) ∧
    (∀ s acc l, popFreeE l = true →
      evalCall f (.entriesRef s acc l) = evalCall f (.entriesOwn s acc l)) := by
  intro f
  induction f with
  | zero =>
    exact ⟨fun s d hp => rfl, fun s ix acc l hl => rfl, fun s acc l hl => rfl⟩
  | succ f ih =>
    obtain ⟨ihA, ihB, ihC⟩ := ih
    refine ⟨?_, ?_, ?_⟩
    · intro s d hp
      cases d <;> try rfl
      case PopArgument => simp [popFree] at hp
      case Map v =>
        have hv : popFreeE v = true := by simpa [popFree] using hp
        exact ihC s [] v hv
      case List v =>
        have hv : popFreeL v = true := by simpa [popFree] using hp
        exact ihB s 0 [] v hv
      case Closure v =>
        match v with
        | [] => rfl
        | b :: rest =>
          have hb : popFree b = true := by
            have hv : popFreeL (b :: rest) = true := by simpa [popFree] using hp
            simp [popFreeL] at hv
            exact hv.1
          simp only [evalCall, (resolve_ref_own_agree f).2.2.2 s [] (b :: rest)]
          cases hr : evalCall f (.resolveAllOwn s [] (b :: rest)) with
          | okList args2 s2 =>
            simp only [hr]
            rw [ihA ⟨args2, s2.index⟩ b hb]
          | ok val s2 => simp [hr]
          | okD d2 s2 => simp [hr]
          | okBool b2 s2 => simp [hr]
          | err e2 => simp [hr]
          | fatalTodo => simp [hr]
          | outOfFuel => simp [hr]
      case Reference w sh r =>
        have hr : popFree r = true := by simpa [popFree] using hp
        have hagree := ihA s r hr
        cases w <;> cases sh <;> simp [evalCall, hagree]
      case IfThenElse v =>
        have hv : popFreeL v = true := by simpa [popFree] using hp
        simp only [evalCall, (resolve_ref_own_agree f).2.1 s v]
        cases hr : evalCall f (.ifteOwn s v) with
        | okD b s2 =>
          have hb : popFree b = true :=
            popFreeL_mem v b hv (ifte_okD_mem f s v b s2 hr)
          simp [hr, ihA s2 b hb]
        | ok val s2 => simp [hr]
        | okList l2 s2 => simp [hr]
        | okBool b2 s2 => simp [hr]
        | err e2 => simp [hr]
        | fatalTodo => simp [hr]
        | outOfFuel => simp [hr]
    · intro s ix acc l hl
      match l with
      | [] => rfl
      | e :: rest =>
        have he : popFree e = true := by simp [popFreeL] at hl; exact hl.1
        have hrest : popFreeL rest = true := by simp [popFreeL] at hl; exact hl.2
        simp only [evalCall, ihA { s with index := ix } e he]
        cases hr : evalCall f (.own { s with index := ix } e) with
        | ok v s2 => simp [hr, ihB s2 (ix + 1) (acc ++ [v]) rest hrest]
        | okD d2 s2 => simp [hr]
        | okList l2 s2 => simp [hr]
        | okBool b2 s2 => simp [hr]
        | err e2 => simp [hr]
        | fatalTodo => simp [hr]
        | outOfFuel => simp [hr]
    · intro s acc l hl
      match l with
      | [] => rfl
      | e :: rest =>
        obtain ⟨k, w⟩ := e
        have hk : popFree k = true := by simp [popFreeE] at hl; exact hl.1.1
        have hw : popFree w = true := by simp [popFreeE] at hl; exact hl.1.2
        have hrest : popFreeE rest = true := by simp [popFreeE] at hl; exact hl.2
        simp only [evalCall, ihA s k hk]
        cases hr : evalCall f (.own s k) with
        | ok kv s2 =>
          simp only [hr, ihA s2 w hw]
          cases hr2 : evalCall f (.own s2 w) with
          | ok wv s3 => simp [hr2, ihC s3 (acc ++ [(kv, wv)]) rest hrest]
          | okD d2 s3 => simp [hr2]
          | okList l2 s3 => simp [hr2]
          | okBool b2 s3 => simp [hr2]
          | err e2 => simp [hr2]
          | fatalTodo => simp [hr2]
          | outOfFuel => simp [hr2]
        | okD d2 s2 => simp [hr]
        | okList l2 s2 => simp [hr]
        | okBool b2 s2 => simp [hr]
        | err e2 => simp [hr]
        | fatalTodo => simp [hr]
        | outOfFuel => simp [hr]

theorem reference_chain_ref :
    ∀ (flags : List Bool) (fuel : Nat) (n : BuilderDataType), popFree n = true →
      evalCall (fuel + flags.length) (.ref freshClosure (wrapChain flags n)) =
        evalCall fuel (.own freshClosure n) := by
  intro flags
  induction flags with
  | nil =>
    intro fuel n hp
    simpa using (ref_own_agree fuel).1 freshClosure n hp
  | cons sh t ih =>
    intro fuel n hp
    rw [show fuel + (sh :: t).length = (fuel + t.length) + 1 by simp; omega]
    show evalCall (fuel + t.length) (.ref freshClosure (wrapChain t n)) =
      evalCall fuel (.own freshClosure n)
    exact ih fuel n hp

/-- C9 amended: for every Map or List node n containing no PopArgument and
every chain of Reference wrappers with no live weak references (any
combination of sole and shared strong ownership), deserializing the
wrapped node through the owning entry point gives the same outcome as
deserializing n directly, spending one fuel step per wrapper.  Without the
PopArgument restriction the equivalence fails, because the borrowing
evaluator taken on a still-shared wrapper leaves PopArgument to the todo
macro while the owning evaluator handles it. -/
theorem reference_chain_inline :
    ∀ (flags : List Bool) (fuel : Nat) (n : BuilderDataType),
      ((∃ v, n = .Map v) ∨ (∃ v, n = .List v)) →
      popFree n = true →
      evalOwn (fuel + flags.length) freshClosure (wrapChain flags n) =
        evalOwn fuel freshClosure n := by
  intro flags
  induction flags with
  | nil =>
    intro fuel n _ _
    simp [evalOwn, wrapChain]
  | cons sh t ih =>
    intro fuel n hc hp
    rw [show fuel + (sh :: t).length = (fuel + t.length) + 1 by simp; omega]
    cases sh with
    | true =>
      show evalCall (fuel + t.length) (.ref freshClosure (wrapChain t n)) =
        evalCall fuel (.own freshClosure n)
      exact reference_chain_ref t fuel n hp
    | false =>
      show evalCall (fuel + t.length) (.own freshClosure (wrapChain t n)) =
        evalCall fuel (.own freshClosure n)
      exact ih fuel n hc hp

/-- Witness for C9 amended: one still-shared wrapper around List[Integer 1]
deserializes like the bare list. -/
theorem reference_chain_inline_witness :
    popFree (.List [.Integer 1]) = true ∧
    evalOwn 6 freshClosure (wrapChain [true] (.List [.Integer 1])) =
      evalOwn 5 freshClosure (.List [.Integer 1]) :=
  ⟨by simp [popFree, popFreeL],
   reference_chain_inline [true] 5 (.List [.Integer 1])
     (Or.inr ⟨[.Integer 1], rfl⟩) (by simp [popFree, popFreeL])⟩

/-- C9 counterexample: a single still-shared Reference (strong count above
one, no weak references) around List[PopArgument]: the wrapped
deserialization reaches the todo panic while the direct one returns the
invalid-function-argument error, so the results differ. -/
theorem reference_chain_counterexample :
    fromData 5 (.Reference false true (.List [.PopArgument])) = .fatalTodo ∧
    fromData 5 (.List [.PopArgument]) = .err .InvalidFunctionArgument ∧
    (EvalOut.fatalTodo ≠ EvalOut.err .InvalidFunctionArgument) :=
  ⟨rfl, rfl, fun h => EvalOut.noConfusion h⟩

theorem cleanL_mem :
    ∀ (l : List BuilderDataType) (d : BuilderDataType),
      cleanL l = true → d ∈ l → clean d = true := by
  intro l
  induction l with
  | nil => intro d h hm; cases hm
  | cons x rest ih =>
    intro d h hm
    simp [cleanL] at h
    cases hm with
    | head => exact h.1
    | tail _ hm2 => exact ih d h.2 hm2

theorem cleanL_dropLast :
    ∀ l : List BuilderDataType, cleanL l = true → cleanL l.dropLast = true := by
  intro l
  induction l with
  | nil => intro h; exact h
  | cons x rest ih =>
    intro h
    cases rest with
    | nil => simp [cleanL]
    | cons y t =>
      simp [cleanL] at h ⊢
      exact ⟨h.1, by simpa [cleanL] using ih (by simp [cleanL]; exact h.2)⟩

theorem takeOne_clean :
    ∀ d, clean d = true →
      clean (takeOne d).fst = true ∧ clean (takeOne d).snd = true := by
  intro d h
  cases d with
  | List c =>
    have hc : cleanL c = true := by simpa [clean] using h
    constructor
    · match hl : c.getLast? with
      | none => simp [takeOne, hl, clean]
      | some a =>
        have := cleanL_mem c a hc (List.mem_of_mem_getLast? hl)
        simp [takeOne, hl, this]
    · have := cleanL_dropLast c hc
      simp [takeOne, clean, this]
  | Boolean b => exact ⟨by simp [takeOne, clean], by simp [takeOne, clean]⟩
  | Integer v => exact ⟨by simp [takeOne, clean], by simp [takeOne, clean]⟩
  | Unsigned v => exact ⟨by simp [takeOne, clean], by simp [takeOne, clean]⟩
  | _ => exact ⟨by simp [takeOne, clean], by simp [takeOne]; exact h⟩

theorem cleanL_cycleTakeAux :
    ∀ (orig : List BuilderDataType), cleanL orig = true →
      ∀ (n : Nat) (cur : List BuilderDataType), cleanL cur = true →
        cleanL (cycleTakeAux orig cur n) = true := by
  intro orig h1 n
  induction n with
  | zero =>
    intro cur h2
    cases cur <;> simp [cycleTakeAux, cleanL]
  | succ n ih =>
    intro cur h2
    cases cur with
    | cons x xs =>
      have hx : clean x = true := by simp [cleanL] at h2; exact h2.1
      have hxs : cleanL xs = true := by simp [cleanL] at h2; exact h2.2
      simp [cycleTakeAux, cleanL, hx, ih xs hxs]
    | nil =>
      cases orig with
      | nil => simp [cycleTakeAux, cleanL]
      | cons o ot =>
        have ho : clean o = true := by simp [cleanL] at h1; exact h1.1
        have hot : cleanL ot = true := by simp [cleanL] at h1; exact h1.2
        simp [cycleTakeAux, cleanL, ho, ih ot hot]

theorem clean_popFree_all : ∀ n : Nat,
    (∀ d, sizeOf d ≤ n → clean d = true → popFree d = true) ∧
    (∀ l : List BuilderDataType, sizeOf l ≤ n → cleanL l = true → popFreeL l = true) ∧
    (∀ l : List (BuilderDataType × BuilderDataType), sizeOf l ≤ n →
      cleanE l = true → popFreeE l = true) := by
  intro n
  induction n with
  | zero =>
    refine ⟨fun d hd _ => ?_, fun l hl _ => ?_, fun l hl _ => ?_⟩
    · have := builderDataType_sizeOf_pos d
      omega
    · cases l <;> simp at hl
    · cases l <;> simp at hl
  | succ n ih =>
    obtain ⟨ih1, ih2, ih3⟩ := ih
    refine ⟨fun d hd hc => ?_, fun l hl hc => ?_, fun l hl hc => ?_⟩
    · cases d with
      | Map v =>
        have : sizeOf v ≤ n := by simp at hd; omega
        simp [popFree]
        exact ih3 v this (by simpa [clean] using hc)
      | List v =>
        have : sizeOf v ≤ n := by simp at hd; omega
        simp [popFree]
        exact ih2 v this (by simpa [clean] using hc)
      | Closure v =>
        have : sizeOf v ≤ n := by simp at hd; omega
        simp [popFree]
        exact ih2 v this (by simpa [clean] using hc)
      | Reference w sh r =>
        have : sizeOf r ≤ n := by simp at hd; omega
        simp [popFree]
        exact ih1 r this (by simpa [clean] using hc)
      | SelfReference w =>
        cases w with
        | none => simp [popFree]
        | some r =>
          have : sizeOf r ≤ n := by simp at hd; omega
          simp [popFree]
          exact ih1 r this (by simpa [clean] using hc)
      | Store r =>
        have : sizeOf r ≤ n := by simp at hd; omega
        simp [popFree]
        exact ih1 r this (by simpa [clean] using hc)
      | Take r => simp [clean] at hc
      | TakeFromArgument a => simp [clean] at hc
      | PopArgument => simp [clean] at hc
      | IfThenElse v =>
        have : sizeOf v ≤ n := by simp at hd; omega
        simp [popFree]
        exact ih2 v this (by simpa [clean] using hc)
      | Repeat v =>
        have : sizeOf v ≤ n := by simp at hd; omega
        simp [popFree]
        exact ih2 v this (by simpa [clean] using hc)
      | Range v =>
        have : sizeOf v ≤ n := by simp at hd; omega
        simp [popFree]
        exact ih2 v this (by simpa [clean] using hc)
      | Sum v =>
        have : sizeOf v ≤ n := by simp at hd; omega
        simp [popFree]
        exact ih2 v this (by simpa [clean] using hc)
      | Multiply v =>
        have : sizeOf v ≤ n := by simp at hd; omega
        simp [popFree]
        exact ih2 v this (by simpa [clean] using hc)
      | _ => simp [popFree]
    · cases l with
      | nil => simp [popFreeL]
      | cons x rest =>
        have hx : sizeOf x ≤ n := by simp at hl; omega
        have hrest : sizeOf rest ≤ n := by simp at hl; omega
        simp [cleanL] at hc
        simp [popFreeL]
        exact ⟨ih1 x hx hc.1, ih2 rest hrest hc.2⟩
    · cases l with
      | nil => simp [popFreeE]
      | cons e rest =>
        obtain ⟨k, w⟩ := e
        have hk : sizeOf k ≤ n := by simp at hl; omega
        have hw : sizeOf w ≤ n := by simp at hl; omega
        have hrest : sizeOf rest ≤ n := by simp at hl; omega
        simp [cleanE] at hc
        simp [popFreeE]
        exact ⟨⟨ih1 k hk hc.1.1, ih1 w hw hc.1.2⟩, ih3 rest hrest hc.2⟩

theorem clean_popFree (d : BuilderDataType) (h : clean d = true) : popFree d = true :=
  (clean_popFree_all (sizeOf d)).1 d le_rfl h

theorem cleanL_popFreeL (l : List BuilderDataType) (h : cleanL l = true) :
    popFreeL l = true :=
  (clean_popFree_all (sizeOf l)).2.1 l le_rfl h

theorem frame_pack : ∀ f : Nat,
    (∀ s d v s2, (∀ x ∈ s.args, clean x = true) → clean d = true →
      evalCall f (.own s d) = .ok v s2 → s2.args = s.args) ∧
    (∀ s ix acc l v s2, (∀ x ∈ s.args, clean x = true) → cleanL l = true →
      evalCall f (.seqOwn s ix acc l) = .ok v s2 → s2.args = s.args) ∧
    (∀ s acc l v s2, (∀ x ∈ s.args, clean x = true) → cleanE l = true →
      evalCall f (.entriesOwn s acc l) = .ok v s2 → s2.args = s.args) ∧
    (∀ s d p s2, (∀ x ∈ s.args, clean x = true) → clean d = true →
      evalCall f (.resolveOne s d) = .okD p s2 → s2.args = s.args) ∧
    (∀ s v b s2, (∀ x ∈ s.args, clean x = true) → cleanL v = true →
      evalCall f (.ifteOwn s v) = .okD b s2 → s2.args = s.args) ∧
    (∀ s acc l out s2, (∀ x ∈ s.args, clean x = true) → cleanL l = true →
      evalCall f (.resolveAllOwn s acc l) = .okList out s2 → s2.args = s.args) := by
  intro f
  induction f with
  | zero =>
    refine ⟨fun s d v s2 _ _ h => ?_, fun s ix acc l v s2 _ _ h => ?_,
      fun s acc l v s2 _ _ h => ?_, fun s d p s2 _ _ h => ?_,
      fun s v b s2 _ _ h => ?_, fun s acc l out s2 _ _ h => ?_⟩ <;>
      exact EvalOut.noConfusion h
  | succ f ih =>
    obtain ⟨ihO, ihS, ihE, ihR, ihI, ihA⟩ := ih
    refine ⟨?_, ?_, ?_, ?_, ?_, ?_⟩
    · intro s d v s2 hs hd h
      cases d with
      | Empty => exact EvalOut.noConfusion h
      | Boolean b => cases h; rfl
      | Integer n => cases h; rfl
      | Unsigned n => cases h; rfl
      | Number n => cases h; rfl
      | String cs => cases h; rfl
      | Index => cases h; rfl
      | Range w => exact EvalOut.noConfusion h
      | Sum w => exact EvalOut.noConfusion h
      | Multiply w => exact EvalOut.noConfusion h
      | Unique => exact EvalOut.noConfusion h
      | TakeFromArgument a => simp [clean] at hd
      | PopArgument => simp [clean] at hd
      | Take r => simp [clean] at hd
      | Map w =>
        exact ihE s [] w v s2 hs (by simpa [clean] using hd) h
      | List w =>
        exact ihS s 0 [] w v s2 hs (by simpa [clean] using hd) h
      | Store r =>
        exact ihO s r v s2 hs (by simpa [clean] using hd) h
      | SelfReference w =>
        cases w with
        | none => exact EvalOut.noConfusion h
        | some r =>
          have hr : clean r = true := by simpa [clean] using hd
          have hag := (ref_own_agree f).1 s r (clean_popFree r hr)
          simp only [evalCall] at h
          rw [hag] at h
          exact ihO s r v s2 hs hr h
      | Reference w sh r =>
        have hr : clean r = true := by simpa [clean] using hd
        have hag := (ref_own_agree f).1 s r (clean_popFree r hr)
        cases w with
        | true =>
          simp only [evalCall, if_true] at h
          rw [hag] at h
          exact ihO s r v s2 hs hr h
        | false =>
          cases sh with
          | true =>
            simp [evalCall] at h
            rw [hag] at h
            exact ihO s r v s2 hs hr h
          | false =>
            simp [evalCall] at h
            exact ihO s r v s2 hs hr h
      | Argument a =>
        cases hk : s.args.get? a with
        | none => simp only [evalCall, hk] at h; exact EvalOut.noConfusion h
        | some p =>
          simp only [evalCall, hk] at h
          exact ihO s p v s2 hs (hs p (List.get?_mem hk)) h
      | Closure w =>
        match w with
        | [] => exact EvalOut.noConfusion h
        | b :: rest =>
          have hw : cleanL (b :: rest) = true := by simpa [clean] using hd
          cases hr : evalCall f (.resolveAllOwn s [] (b :: rest)) with
          | okList args2 s3 =>
            simp only [evalCall, hr] at h
            have hframe := ihA s [] (b :: rest) args2 s3 hs hw hr
            cases hb : evalCall f (.own ⟨args2, s3.index⟩ b) with
            | ok val s4 =>
              rw [hb] at h
              cases h
              exact hframe
            | okD d2 s4 => rw [hb] at h; exact EvalOut.noConfusion h
            | okList l2 s4 => rw [hb] at h; exact EvalOut.noConfusion h
            | okBool b2 s4 => rw [hb] at h; exact EvalOut.noConfusion h
            | err e2 => rw [hb] at h; exact EvalOut.noConfusion h
            | fatalTodo => rw [hb] at h; exact EvalOut.noConfusion h
            | outOfFuel => rw [hb] at h; exact EvalOut.noConfusion h
          | ok val s3 =>
            have hsh := (resolve_shapes f).2.2.2.2.2.1 s [] (b :: rest)
            rw [hr] at hsh
            exact hsh.elim
          | okD d2 s3 => simp only [evalCall, hr] at h; exact EvalOut.noConfusion h
          | okBool b2 s3 => simp only [evalCall, hr] at h; exact EvalOut.noConfusion h
          | err e2 => simp only [evalCall, hr] at h; exact EvalOut.noConfusion h
          | fatalTodo => simp only [evalCall, hr] at h; exact EvalOut.noConfusion h
          | outOfFuel => simp only [evalCall, hr] at h; exact EvalOut.noConfusion h
      | IfThenElse w =>
        have hw : cleanL w = true := by simpa [clean] using hd
        cases hr : evalCall f (.ifteOwn s w) with
        | okD b s3 =>
          simp only [evalCall, hr] at h
          have hframe := ihI s w b s3 hs hw hr
          have hb : clean b = true :=
            cleanL_mem w b hw (ifte_okD_mem f s w b s3 hr)
          have hs3 : ∀ x ∈ s3.args, clean x = true := by
            rw [hframe]; exact hs
          rw [ihO s3 b v s2 hs3 hb h]
          exact hframe
        | ok val s3 =>
          have hsh := (resolve_shapes f).2.2.1 s w
          rw [hr] at hsh
          exact hsh.elim
        | okList l2 s3 => simp only [evalCall, hr] at h; exact EvalOut.noConfusion h
        | okBool b2 s3 => simp only [evalCall, hr] at h; exact EvalOut.noConfusion h
        | err e2 => simp only [evalCall, hr] at h; exact EvalOut.noConfusion h
        | fatalTodo => simp only [evalCall, hr] at h; exact EvalOut.noConfusion h
        | outOfFuel => simp only [evalCall, hr] at h; exact EvalOut.noConfusion h
      | Repeat w =>
        match w with
        | [] =>
          have hag := (ref_own_agree f).2.1 s 0 ([] : List Value)
            ([] : List BuilderDataType) (by simp [popFreeL])
          simp only [evalCall] at h
          rw [hag] at h
          exact ihS s 0 [] [] v s2 hs (by simp [cleanL]) h
        | cnt :: rest =>
          have hrest : cleanL rest = true := by
            have := (by simpa [clean] using hd : cleanL (cnt :: rest) = true)
            simp [cleanL] at this
            exact this.2
          have hcyc : cleanL (cycleTake rest (toUnsigned cnt)) = true :=
            cleanL_cycleTakeAux rest hrest (toUnsigned cnt) rest hrest
          have hag := (ref_own_agree f).2.1 s 0 ([] : List Value)
            (cycleTake rest (toUnsigned cnt)) (cleanL_popFreeL _ hcyc)
          simp only [evalCall] at h
          rw [hag] at h
          exact ihS s 0 [] _ v s2 hs hcyc h
    · intro s ix acc l v s2 hs hl h
      match l with
      | [] => cases h; rfl
      | e :: rest =>
        have he : clean e = true := by simp [cleanL] at hl; exact hl.1
        have hrest : cleanL rest = true := by simp [cleanL] at hl; exact hl.2
        cases hr : evalCall f (.own { s with index := ix } e) with
        | ok v1 s3 =>
          simp only [evalCall, hr] at h
          have hframe : s3.args = s.args :=
            ihO { s with index := ix } e v1 s3 hs he hr
          have hs3 : ∀ x ∈ s3.args, clean x = true := by
            rw [hframe]; exact hs
          rw [ihS s3 (ix + 1) (acc ++ [v1]) rest v s2 hs3 hrest h]
          exact hframe
        | okD d2 s3 => simp only [evalCall, hr] at h; exact EvalOut.noConfusion h
        | okList l2 s3 => simp only [evalCall, hr] at h; exact EvalOut.noConfusion h
        | okBool b2 s3 => simp only [evalCall, hr] at h; exact EvalOut.noConfusion h
        | err e2 => simp only [evalCall, hr] at h; exact EvalOut.noConfusion h
        | fatalTodo => simp only [evalCall, hr] at h; exact EvalOut.noConfusion h
        | outOfFuel => simp only [evalCall, hr] at h; exact EvalOut.noConfusion h
    · intro s acc l v s2 hs hl h
      match l with
      | [] => cases h; rfl
      | (k, w) :: rest =>
        have hk : clean k = true := by simp [cleanE] at hl; exact hl.1.1
        have hw : clean w = true := by simp [cleanE] at hl; exact hl.1.2
        have hrest : cleanE rest = true := by simp [cleanE] at hl; exact hl.2
        cases hr : evalCall f (.own s k) with
        | ok kv s3 =>
          have hframe1 : s3.args = s.args := ihO s k kv s3 hs hk hr
          have hs3 : ∀ x ∈ s3.args, clean x = true := by
            rw [hframe1]; exact hs
          cases hr2 : evalCall f (.own s3 w) with
          | ok wv s4 =>
            simp only [evalCall, hr, hr2] at h
            have hframe2 : s4.args = s3.args := ihO s3 w wv s4 hs3 hw hr2
            have hs4 : ∀ x ∈ s4.args, clean x = true := by
              rw [hframe2]; exact hs3
            rw [ihE s4 (acc ++ [(kv, wv)]) rest v s2 hs4 hrest h]
            rw [hframe2, hframe1]
          | okD d2 s4 => simp only [evalCall, hr, hr2] at h; exact EvalOut.noConfusion h
          | okList l2 s4 => simp only [evalCall, hr, hr2] at h; exact EvalOut.noConfusion h
          | okBool b2 s4 => simp only [evalCall, hr, hr2] at h; exact EvalOut.noConfusion h
          | err e2 => simp only [evalCall, hr, hr2] at h; exact EvalOut.noConfusion h
          | fatalTodo => simp only [evalCall, hr, hr2] at h; exact EvalOut.noConfusion h
          | outOfFuel => simp only [evalCall, hr, hr2] at h; exact EvalOut.noConfusion h
        | okD d2 s3 => simp only [evalCall, hr] at h; exact EvalOut.noConfusion h
        | okList l2 s3 => simp only [evalCall, hr] at h; exact EvalOut.noConfusion h
        | okBool b2 s3 => simp only [evalCall, hr] at h; exact EvalOut.noConfusion h
        | err e2 => simp only [evalCall, hr] at h; exact EvalOut.noConfusion h
        | fatalTodo => simp only [evalCall, hr] at h; exact EvalOut.noConfusion h
        | outOfFuel => simp only [evalCall, hr] at h; exact EvalOut.noConfusion h
    · intro s d p s2 hs hd h
      cases d with
      | Argument a =>
        cases hk : s.args.get? a with
        | none =>
          simp only [evalCall, cloneArgument, hk] at h
          exact EvalOut.noConfusion h
        | some q =>
          simp only [evalCall, cloneArgument, hk] at h
          cases h
          rfl
      | TakeFromArgument a => simp [clean] at hd
      | IfThenElse w =>
        exact ihI s w p s2 hs (by simpa [clean] using hd) h
      | Empty => cases h; rfl
      | Boolean b => cases h; rfl
      | Integer n => cases h; rfl
      | Unsigned n => cases h; rfl
      | Number n => cases h; rfl
      | String cs => cases h; rfl
      | Map w => cases h; rfl
      | List w => cases h; rfl
      | Closure w => cases h; rfl
      | PopArgument => cases h; rfl
      | Reference w sh r => cases h; rfl
      | SelfReference w => cases h; rfl
      | Store r => cases h; rfl
      | Take r => cases h; rfl
      | Repeat w => cases h; rfl
      | Range w => cases h; rfl
      | Sum w => cases h; rfl
      | Multiply w => cases h; rfl
      | Index => cases h; rfl
      | Unique => cases h; rfl
    · intro s v b s2 hs hv h
      match v with
      | [] => exact EvalOut.noConfusion h
      | [c] => exact EvalOut.noConfusion h
      | [c, t] => exact EvalOut.noConfusion h
      | c :: t :: e :: rest =>
        have hc : clean c = true := by simp [cleanL] at hv; exact hv.1
        cases hr : evalCall f (.resolveOne s c) with
        | okD c2 s3 =>
          simp only [evalCall, hr] at h
          have hframe := ihR s c c2 s3 hs hc hr
          cases hb : checkTrue c2 <;> rw [hb] at h <;> simp at h <;>
            rw [← h.2] <;> exact hframe
        | ok val s3 => simp only [evalCall, hr] at h; exact EvalOut.noConfusion h
        | okList l2 s3 => simp only [evalCall, hr] at h; exact EvalOut.noConfusion h
        | okBool b2 s3 => simp only [evalCall, hr] at h; exact EvalOut.noConfusion h
        | err e2 => simp only [evalCall, hr] at h; exact EvalOut.noConfusion h
        | fatalTodo => simp only [evalCall, hr] at h; exact EvalOut.noConfusion h
        | outOfFuel => simp only [evalCall, hr] at h; exact EvalOut.noConfusion h
    · intro s acc l out s2 hs hl h
      match l with
      | [] => cases h; rfl
      | d :: rest =>
        have hd : clean d = true := by simp [cleanL] at hl; exact hl.1
        have hrest : cleanL rest = true := by simp [cleanL] at hl; exact hl.2
        cases hr : evalCall f (.resolveOne s d) with
        | okD p s3 =>
          simp only [evalCall, hr] at h
          have hframe := ihR s d p s3 hs hd hr
          have hs3 : ∀ x ∈ s3.args, clean x = true := by
            rw [hframe]; exact hs
          rw [ihA s3 (acc ++ [p]) rest out s2 hs3 hrest h]
          exact hframe
        | ok val s3 => simp only [evalCall, hr] at h; exact EvalOut.noConfusion h
        | okList l2 s3 =>
          have hsh := (resolve_shapes f).1 s d
          rw [hr] at hsh
          exact hsh.elim
        | okBool b2 s3 => simp only [evalCall, hr] at h; exact EvalOut.noConfusion h
        | err e2 => simp only [evalCall, hr] at h; exact EvalOut.noConfusion h
        | fatalTodo => simp only [evalCall, hr] at h; exact EvalOut.noConfusion h
        | outOfFuel => simp only [evalCall, hr] at h; exact EvalOut.noConfusion h

/-- C10 counterexample: in the context [Argument(1), TakeFromArgument(2),
Integer 5], slot 0 contains no TakeFromArgument, PopArgument or Take
descendants, yet evaluating Argument(0) succeeds and mutates slot 2
(Integer 5 becomes Integer 4), because the clone of slot 0 refers to slot
1 whose content performs a take on slot 2. -/
theorem argument_frame_counterexample :
    evalOwn 10 ⟨[.Argument 1, .TakeFromArgument 2, .Integer 5], 0⟩ (.Argument 0) =
      .ok (.i64 5) ⟨[.Argument 1, .TakeFromArgument 2, .Integer 4], 0⟩ ∧
    clean (.Argument 1) = true ∧
    ([BuilderDataType.Argument 1, .TakeFromArgument 2, .Integer 4] ≠
      [BuilderDataType.Argument 1, .TakeFromArgument 2, .Integer 5]) := by
  refine ⟨rfl, by simp [clean], ?_⟩
  intro h
  simp at h

/-- C10 amended: for a context all of whose argument slots are free of
TakeFromArgument, PopArgument and Take, and an in-bounds index k with slot
content p: a successful evaluation of Argument(k) leaves the whole
argument vector unchanged, and a successful evaluation of
TakeFromArgument(k) leaves exactly the vector with take_one applied to
slot k (every other slot unchanged). -/
theorem argument_frame :
    ∀ (f : Nat) (s : Closure) (k : Nat) (p : BuilderDataType),
      (∀ x ∈ s.args, clean x = true) →
      s.args.get? k = some p →
      (∀ v s2, evalOwn f s (.Argument k) = .ok v s2 → s2.args = s.args) ∧
      (∀ v s2, evalOwn f s (.TakeFromArgument k) = .ok v s2 →
        s2.args = s.args.set k (takeOne p).snd) := by
  intro f s k p hclean hk
  constructor
  · intro v s2 h
    match f with
    | 0 => exact EvalOut.noConfusion h
    | g + 1 =>
      simp only [evalOwn, evalCall, hk] at h
      exact (frame_pack g).1 s p v s2 hclean (hclean p (List.get?_mem hk)) h
  · intro v s2 h
    match f with
    | 0 => exact EvalOut.noConfusion h
    | g + 1 =>
      simp only [evalOwn, evalCall, takeFromArgument, hk] at h
      have hp : clean p = true := hclean p (List.get?_mem hk)
      have hfst : clean (takeOne p).fst = true := (takeOne_clean p hp).1
      have hsnd : clean (takeOne p).snd = true := (takeOne_clean p hp).2
      have hset : ∀ x ∈ s.args.set k (takeOne p).snd, clean x = true := by
        intro x hx
        rcases List.mem_or_eq_of_mem_set hx with hmem | heq
        · exact hclean x hmem
        · rw [heq]; exact hsnd
      exact (frame_pack g).1 { s with args := s.args.set k (takeOne p).snd }
        (takeOne p).fst v s2 hset hfst h

/-- Witness for C10 amended: taking from the single clean slot Integer 3
leaves the vector with that slot decremented. -/
theorem argument_frame_witness :
    ((∀ x ∈ (⟨[.Integer 3], 0⟩ : Closure).args, clean x = true) ∧
      (⟨[.Integer 3], 0⟩ : Closure).args.get? 0 = some (.Integer 3)) ∧
    ((⟨[.Integer 2], 0⟩ : Closure).args =
      (⟨[.Integer 3], 0⟩ : Closure).args.set 0 (takeOne (.Integer 3)).snd) :=
  ⟨⟨by intro x hx; simp at hx; rw [hx]; simp [clean], rfl⟩,
   (argument_frame 2 ⟨[.Integer 3], 0⟩ 0 (.Integer 3)
     (by intro x hx; simp at hx; rw [hx]; simp [clean]) rfl).2
     (.i64 3) ⟨[.Integer 2], 0⟩ rfl⟩
